import Mathlib

/-!
Virtual-memory address-space calculator (`address_space.c`)

A shallow embedding of `src/address_space.c` and theorems about it.

Conventions of the embedding:

* `unsigned long long` values are natural numbers, and every operation that can
  wrap is taken modulo `2 ^ 64`;
* `int` values are integers; the only `int` operation of the program whose
  result can leave the 32-bit range (or be undefined) is the shift
  `1 << pd_bits`, which is modelled by `shl_int` with an optional result;
* `main` is split at its natural seams: `main_setup` is the part that runs once
  (argument validation and the layout, lines 43-99), `main_query` is the body
  of the query loop for one address read by `scanf` (lines 109-153), and
  `main_loop` is the loop itself over the tokens of the input (lines 102-154).
-/

namespace AddressSpace

/-! ## Machine arithmetic -/

/-- Size in bytes of a page table entry: `#define PTE_SIZE 4`. -/
def PTE_SIZE : Nat := 4

/-- Number of values of an `unsigned long long`. -/
def U64 : Nat := 2 ^ 64

/-- Largest value of a 32-bit `int`. -/
def INT_MAX : Int := 2147483647

/-- Conversion of an `int` to `unsigned long long` (reduction modulo `2 ^ 64`). -/
def to_u64 (n : Int) : Nat := (n % (2 ^ 64 : Int)).toNat

/-- Conversion of an `unsigned long long` to a 32-bit `int` (two's complement). -/
def to_int (n : Nat) : Int :=
  if n % 2 ^ 32 < 2 ^ 31 then ((n % 2 ^ 32 : Nat) : Int) else ((n % 2 ^ 32 : Nat) : Int) - 2 ^ 32

/-- The shift `a << s` of an `unsigned long long` by an `int` amount.  C defines it
for `0 <= s <= 63` only; the result wraps modulo `2 ^ 64`. -/
def shl64 (a : Nat) (s : Int) : Nat := (a <<< s.toNat) % U64

/-- The shift `a >> s` of an `unsigned long long` by an `int` amount
(defined by C for `0 <= s <= 63`). -/
def shr64 (a : Nat) (s : Int) : Nat := a >>> s.toNat

/-- The subtraction `a - b` of `unsigned long long` values, wrapping modulo `2 ^ 64`. -/
def sub64 (a b : Nat) : Nat := (a + (U64 - b % U64)) % U64

/-- The multiplication `a * b` of `unsigned long long` values, wrapping modulo `2 ^ 64`. -/
def mul64 (a b : Nat) : Nat := (a * b) % U64

/-- The shift `a << s` of 32-bit `int` values.  C gives it a value only when `a` is
non-negative, `0 <= s < 32` and `a * 2 ^ s` is representable in an `int`; in every
other case the behaviour is undefined and the model returns `none`. -/
def shl_int (a s : Int) : Option Int :=
  if 0 ≤ a ∧ 0 ≤ s ∧ s < 32 ∧ a * 2 ^ s.toNat ≤ INT_MAX then some (a * 2 ^ s.toNat) else none

/-! ## Helper functions of the program -/

/-- The function `is_power_of_two(n)`: `n > 0 && (n & (n - 1)) == 0`.  The bitwise and is only
evaluated when `n > 0`, where both operands are non-negative. -/
def is_power_of_two (n : Int) : Bool :=
  decide (n > 0) && (n.toNat &&& (n - 1).toNat == 0)

/-- Number of times `x` can be halved before it drops below 2, with `fuel` bounding
the recursion: the integer part of the base-2 logarithm of `x` when `x < 2 ^ fuel`. -/
def log2_halvings : Nat → Nat → Nat
  | 0, _ => 0
  | fuel + 1, x => if 2 ≤ x then log2_halvings fuel (x / 2) + 1 else 0

/-- The function `log2_int(x)`: `x == 0 ? 0 : (int)(log2(x))`, the integer part of the base-2
logarithm of an `unsigned long long`.  (The C code goes through `double`; on the
arguments `main` passes, powers of two up to `2 ^ 19`, that is exact.) -/
def log2_int (x : Nat) : Int :=
  if x = 0 then 0 else (log2_halvings 64 x : Int)

/-- The loop of `print_binary` with `n = i + 1` iterations left: it emits the bits
`n - 1, ..., 0` of `value`, most significant first. -/
def print_binary_loop (value : Nat) : Nat → List Char
  | 0 => []
  | i + 1 => (if (value >>> i) &&& 1 = 1 then '1' else '0') :: print_binary_loop value i

/-- The function `print_binary(value, bits)`: the characters printed, for `i = bits - 1` down to 0,
as the decimal digit `(value >> i) & 1`.  Nothing is printed when `bits <= 0`.
The shifts are taken on natural numbers, which is what C computes as long as every
shift amount is at most 63, that is for `bits <= 64`; this covers every call in `main`,
whose widths are at most 63.  `print_binary_checked` is the same function with the
domain of the shifts made explicit. -/
def print_binary (value : Nat) (bits : Int) : List Char :=
  print_binary_loop value bits.toNat

/-- The shift `value >> i` of `print_binary` with its domain: `value` is an
`unsigned long long`, so C defines the shift for `i <= 63` only; `none` stands for an
undefined shift. -/
def shr64_checked (value i : Nat) : Option Nat :=
  if i < 64 then some (value >>> i) else none

/-- The loop of `print_binary` with every shift checked: the characters printed, or
`none` when one of the shifts `value >> i` of the loop is undefined. -/
def print_binary_loop_checked (value : Nat) : Nat → Option (List Char)
  | 0 => some []
  | i + 1 =>
    match shr64_checked value i, print_binary_loop_checked value i with
    | some x, some rest => some ((if x &&& 1 = 1 then '1' else '0') :: rest)
    | _, _ => none

/-- The function `print_binary(value, bits)` with every shift checked: `some` of the
characters printed when the call is defined by C, `none` otherwise. -/
def print_binary_checked (value : Nat) (bits : Int) : Option (List Char) :=
  print_binary_loop_checked value bits.toNat

/-- Unit chosen by `print_memory_size`. -/
inductive MemUnit where
  | B
  | KB
  | MB
  | GB
  deriving DecidableEq, Repr

/-- The function `print_memory_size(bytes)`: the number and the unit that are printed. -/
def print_memory_size (bytes : Nat) : Nat × MemUnit :=
  if bytes ≥ shl64 1 30 then (shr64 bytes 30, MemUnit.GB)
  else if bytes ≥ shl64 1 20 then (shr64 bytes 20, MemUnit.MB)
  else if bytes ≥ shl64 1 10 then (shr64 bytes 10, MemUnit.KB)
  else (bytes, MemUnit.B)

/-! ## The configuration part of `main` -/

/-- The four validation failures of `main`, one per error message. -/
inductive ConfigError where
  /-- Message "page table type must be 1 or 2." -/
  | bad_type
  /-- Message "address bits must be between 8 and 63." -/
  | bad_address_bits
  /-- Message "page size must be a power of two between 1 and 512 KB." -/
  | bad_page_size
  /-- Message "address space is too small for the specified page size." -/
  | address_space_too_small
  deriving DecidableEq, Repr

/-- The local variables of `main` that are live when the query loop starts. -/
structure Layout where
  type : Int
  address_bits : Int
  page_size_kb : Int
  mem_size : Nat
  page_size_bytes : Nat
  offset_bits : Int
  vpn_bits : Int
  total_pages : Nat
  page_table_size : Nat
  ptes_per_page : Int
  /-- The value of `1 << pd_bits` as an `int`; `none` when C leaves it undefined. -/
  pages_in_table : Option Int
  pd_bits : Int
  pt_bits : Int
  deriving DecidableEq, Repr

deriving instance DecidableEq for Except

/-- Lines 43-99 of `main`: validation of the three parsed arguments and
computation of the layout.  `Except.error` is an error message followed by
`return 1`; `Except.ok` is the state with which the query loop is entered. -/
def main_setup (type address_bits page_size_kb : Int) : Except ConfigError Layout :=
  if type ≠ 1 ∧ type ≠ 2 then
    Except.error ConfigError.bad_type
  else if address_bits < 8 ∨ address_bits > 63 then
    Except.error ConfigError.bad_address_bits
  else if is_power_of_two page_size_kb = false ∨ page_size_kb < 1 ∨ page_size_kb > 512 then
    Except.error ConfigError.bad_page_size
  else
    let mem_size := shl64 1 address_bits
    let page_size_bytes := mul64 (to_u64 page_size_kb) 1024
    if mem_size < page_size_bytes then
      Except.error ConfigError.address_space_too_small
    else
      let offset_bits := log2_int page_size_bytes
      let vpn_bits := address_bits - offset_bits
      let total_pages := shl64 1 vpn_bits
      let page_table_size := mul64 total_pages PTE_SIZE
      if type = 2 then
        let ptes_per_page := to_int (page_size_bytes / PTE_SIZE)
        let pt_bits := log2_int (to_u64 ptes_per_page)
        let pd_bits := vpn_bits - pt_bits
        let pages_in_table := shl_int 1 pd_bits
        Except.ok
          { type := type, address_bits := address_bits, page_size_kb := page_size_kb,
            mem_size := mem_size, page_size_bytes := page_size_bytes,
            offset_bits := offset_bits, vpn_bits := vpn_bits, total_pages := total_pages,
            page_table_size := page_table_size, ptes_per_page := ptes_per_page,
            pages_in_table := pages_in_table, pd_bits := pd_bits, pt_bits := pt_bits }
      else
        Except.ok
          { type := type, address_bits := address_bits, page_size_kb := page_size_kb,
            mem_size := mem_size, page_size_bytes := page_size_bytes,
            offset_bits := offset_bits, vpn_bits := vpn_bits, total_pages := total_pages,
            page_table_size := page_table_size, ptes_per_page := 0,
            pages_in_table := some 0, pd_bits := 0, pt_bits := 0 }

/-! ## One iteration of the query loop -/

/-- What one iteration of the query loop reports for the address it read. -/
inductive QueryResult where
  /-- Message "Error: address exceeds memory bounds of `mem_size` bytes." -/
  | out_of_range (mem_size : Nat)
  /-- The report of the single-level branch: decimal fields, then binary strings. -/
  | single_level (vpn offset : Nat) (vaddr_bin vpn_bin offset_bin : List Char)
  /-- The report of the two-level branch: decimal fields, then binary strings. -/
  | two_level (vpn offset pd_index pt_index : Nat)
      (vaddr_bin vpn_bin offset_bin pd_bin pt_bin : List Char)
  deriving DecidableEq, Repr

/-- Lines 109-153 of `main`: the loop body for an address `vaddr` that `scanf`
has read successfully. -/
def main_query (L : Layout) (vaddr : Nat) : QueryResult :=
  if vaddr ≥ L.mem_size then
    QueryResult.out_of_range L.mem_size
  else
    let offset := vaddr &&& sub64 (shl64 1 L.offset_bits) 1
    let vpn := shr64 vaddr L.offset_bits
    if L.type = 2 then
      let pt_index := vpn &&& sub64 (shl64 1 L.pt_bits) 1
      let pd_index := shr64 vpn L.pt_bits
      QueryResult.two_level vpn offset pd_index pt_index
        (print_binary vaddr L.address_bits) (print_binary vpn L.vpn_bits)
        (print_binary offset L.offset_bits) (print_binary pd_index L.pd_bits)
        (print_binary pt_index L.pt_bits)
    else
      QueryResult.single_level vpn offset
        (print_binary vaddr L.address_bits) (print_binary vpn L.vpn_bits)
        (print_binary offset L.offset_bits)

/-! ## The query loop -/

/-- Lines 102-154 of `main`: the `while (1)` loop over the tokens that `scanf` meets.
An input token is `some vaddr` when `scanf` reads a number and `none` when it fails
on a non-numeric token; the end of the list is the end of the input.  A failed
`scanf` breaks out of the loop; after an out-of-range report (`continue`) and after a
decomposition the loop goes on with the next token.  The result is the list of the
reports printed, in order (the constant prompt is left out). -/
def main_loop (L : Layout) : List (Option Nat) → List QueryResult
  | [] => []
  | none :: _ => []
  | some vaddr :: rest => main_query L vaddr :: main_loop L rest

/-! ## Reading a binary string -/

/-- Reading aid, not a function of the program: the number that a string of binary
digits denotes, most significant digit first (every character other than `'1'`
counts as the digit 0). -/
def binary_value (digits : List Char) : Nat :=
  digits.foldl (fun acc c => 2 * acc + (if c = '1' then 1 else 0)) 0

/-! ## Closed form of the layout -/

/-- Proof device, not a function of the program: the values of the locals of `main`
written as closed formulas in the address width `n` and the exponent `j` of the page
size `2 ^ j` KB.  `main_setup_eq` proves that `main_setup` computes exactly this
layout, and `main_setup_ok` that every accepted configuration has this form. -/
def layout_of (t : Int) (n j : Nat) : Layout :=
  { type := t, address_bits := n, page_size_kb := 2 ^ j,
    mem_size := 2 ^ n, page_size_bytes := 2 ^ (j + 10),
    offset_bits := (j : Int) + 10, vpn_bits := (n : Int) - ((j : Int) + 10),
    total_pages := 2 ^ (n - (j + 10)), page_table_size := 4 * 2 ^ (n - (j + 10)),
    ptes_per_page := if t = 2 then 2 ^ (j + 8) else 0,
    pages_in_table := if t = 2 then shl_int 1 ((n : Int) - 2 * (j : Int) - 18) else some 0,
    pd_bits := if t = 2 then (n : Int) - 2 * (j : Int) - 18 else 0,
    pt_bits := if t = 2 then (j : Int) + 8 else 0 }

/-! ## Auxiliary lemmas on the machine arithmetic -/

theorem land_pred_double (q : Nat) (hq : 0 < q) :
    (2 * q) &&& (2 * q - 1) = 2 * (q &&& (q - 1)) := by
  apply Nat.eq_of_testBit_eq
  intro i
  cases i with
  | zero => simp [Nat.testBit_zero]
  | succ i =>
    have h1 : (2 * q - 1) / 2 = q - 1 := by omega
    have h2 : 2 * q / 2 = q := by omega
    have h3 : 2 * (q &&& (q - 1)) / 2 = q &&& (q - 1) := by omega
    rw [Nat.testBit_and, Nat.testBit_succ, Nat.testBit_succ, Nat.testBit_succ, h1, h2, h3,
      Nat.testBit_and]

theorem land_pred_odd (q : Nat) (hq : 0 < q) : (2 * q + 1) &&& (2 * q + 1 - 1) ≠ 0 := by
  intro h
  have h2 : ((2 * q + 1) &&& (2 * q + 1 - 1)) / 2 = 0 := by rw [h]
  have h3 : ((2 * q + 1) &&& (2 * q + 1 - 1)) / 2 = q := by
    apply Nat.eq_of_testBit_eq
    intro i
    have h4 : (2 * q + 1) / 2 = q := by omega
    have h5 : (2 * q + 1 - 1) / 2 = q := by omega
    rw [← Nat.testBit_succ, Nat.testBit_and, Nat.testBit_succ, Nat.testBit_succ, h4, h5,
      Bool.and_self]
  omega

theorem land_pred_eq_zero_iff (m : Nat) :
    (0 < m ∧ m &&& (m - 1) = 0) ↔ ∃ j : Nat, m = 2 ^ j := by
  constructor
  · rintro ⟨hpos, hz⟩
    induction m using Nat.strong_induction_on with
    | _ m ih =>
      rcases Nat.even_or_odd' m with ⟨q, rfl | rfl⟩
      · have hq : 0 < q := by omega
        rw [land_pred_double q hq] at hz
        obtain ⟨j, hj⟩ := ih q (by omega) hq (by omega)
        exact ⟨j + 1, by rw [hj, pow_succ]; ring⟩
      · rcases Nat.eq_zero_or_pos q with rfl | hq
        · exact ⟨0, by simp⟩
        · exact absurd hz (land_pred_odd q hq)
  · rintro ⟨j, rfl⟩
    refine ⟨by positivity, ?_⟩
    rw [Nat.and_pow_two_sub_one_eq_mod]
    simp

theorem is_power_of_two_iff (n : Int) :
    is_power_of_two n = true ↔ ∃ j : Nat, n = 2 ^ j := by
  unfold is_power_of_two
  rw [Bool.and_eq_true, decide_eq_true_eq, beq_iff_eq]
  constructor
  · rintro ⟨hpos, hz⟩
    obtain ⟨m, rfl⟩ := Int.eq_ofNat_of_zero_le (le_of_lt hpos)
    have hm : 0 < m := by exact_mod_cast hpos
    have h1 : ((m : Int) - 1).toNat = m - 1 := by omega
    rw [h1, Int.toNat_ofNat] at hz
    obtain ⟨j, hj⟩ := (land_pred_eq_zero_iff m).1 ⟨hm, hz⟩
    exact ⟨j, by rw [hj]; push_cast; rfl⟩
  · rintro ⟨j, rfl⟩
    have hp : (0 : Int) < 2 ^ j := by positivity
    refine ⟨hp, ?_⟩
    have h0 : ((2 : Int) ^ j) = ((2 ^ j : Nat) : Int) := by push_cast; rfl
    have h1 : ((2 : Int) ^ j - 1).toNat = 2 ^ j - 1 := by
      have : 0 < 2 ^ j := by positivity
      rw [h0]; omega
    rw [h1, h0, Int.toNat_ofNat]
    exact ((land_pred_eq_zero_iff (2 ^ j)).2 ⟨j, rfl⟩).2

theorem shl64_one (n : Nat) (h : n ≤ 63) : shl64 1 (n : Int) = 2 ^ n := by
  unfold shl64 U64
  rw [Int.toNat_ofNat, Nat.one_shiftLeft]
  apply Nat.mod_eq_of_lt
  exact Nat.pow_lt_pow_right (by decide) (by omega)

theorem to_u64_natCast (x : Nat) (h : x < 2 ^ 64) : to_u64 (x : Int) = x := by
  unfold to_u64
  omega

theorem to_int_small (x : Nat) (h : x < 2 ^ 31) : to_int x = (x : Int) := by
  unfold to_int
  have h1 : x % 2 ^ 32 = x := Nat.mod_eq_of_lt (by omega)
  rw [h1, if_pos h]

theorem log2_halvings_two_pow (fuel m : Nat) (h : m ≤ fuel) :
    log2_halvings fuel (2 ^ m) = m := by
  induction fuel generalizing m with
  | zero =>
    have : m = 0 := by omega
    subst this
    rfl
  | succ f ih =>
    cases m with
    | zero => simp [log2_halvings]
    | succ m =>
      have h2 : 2 ≤ 2 ^ (m + 1) := by
        have : 0 < 2 ^ m := by positivity
        rw [pow_succ]; omega
      have h3 : 2 ^ (m + 1) / 2 = 2 ^ m := by
        rw [pow_succ]; omega
      rw [log2_halvings, if_pos h2, h3, ih m (by omega)]

theorem log2_int_two_pow (m : Nat) (h : m ≤ 64) : log2_int (2 ^ m) = (m : Int) := by
  unfold log2_int
  have : 2 ^ m ≠ 0 := by positivity
  rw [if_neg this, log2_halvings_two_pow 64 m h]

theorem log2_halvings_eq_log (fuel x : Nat) (h : x < 2 ^ fuel) :
    log2_halvings fuel x = Nat.log 2 x := by
  induction fuel generalizing x with
  | zero =>
    have : x = 0 := by simpa using h
    subst this
    simp [log2_halvings]
  | succ f ih =>
    by_cases h2 : 2 ≤ x
    · have hx : x / 2 < 2 ^ f := by
        rw [pow_succ] at h
        omega
      rw [log2_halvings, if_pos h2, ih _ hx, Nat.log_of_one_lt_of_le (by decide) h2]
    · rw [log2_halvings, if_neg h2, Nat.log_of_lt (by omega)]

/-- On 64-bit arguments `log2_int` is the integer part of the base-2 logarithm. -/
theorem log2_int_eq_log (x : Nat) (h : x < 2 ^ 64) : log2_int x = (Nat.log 2 x : Int) := by
  unfold log2_int
  by_cases hx : x = 0
  · subst hx
    simp
  · rw [if_neg hx, log2_halvings_eq_log 64 x h]

/-! ## The shape of an accepted configuration -/

theorem page_size_check_iff (k : Int) :
    ¬ (is_power_of_two k = false ∨ k < 1 ∨ k > 512) ↔ ∃ j : Nat, j ≤ 9 ∧ k = 2 ^ j := by
  rw [not_or, not_or, Bool.not_eq_false, is_power_of_two_iff]
  constructor
  · rintro ⟨⟨j, rfl⟩, -, h512⟩
    refine ⟨j, ?_, rfl⟩
    by_contra hj
    have h10 : (2 : Int) ^ 10 ≤ 2 ^ j := pow_le_pow_right₀ (by norm_num) (by omega)
    norm_num at h10 h512
    omega
  · rintro ⟨j, hj, rfl⟩
    refine ⟨⟨j, rfl⟩, ?_, ?_⟩
    · have : (1 : Int) ≤ 2 ^ j := one_le_pow₀ (by norm_num)
      omega
    · have h9 : (2 : Int) ^ j ≤ 2 ^ 9 := pow_le_pow_right₀ (by norm_num) hj
      norm_num at h9 ⊢
      omega

theorem main_setup_eq (t : Int) (n j : Nat) (ht : t = 1 ∨ t = 2) (hj : j ≤ 9)
    (hn : j + 10 ≤ n) (hn63 : n ≤ 63) :
    main_setup t (n : Int) (2 ^ j) = Except.ok (layout_of t n j) := by
  have hk := (page_size_check_iff ((2 : Int) ^ j)).2 ⟨j, hj, rfl⟩
  have hpk : (2 : Int) ^ j = ((2 ^ j : Nat) : Int) := by push_cast; rfl
  have hjlt : 2 ^ j < 2 ^ 64 := Nat.pow_lt_pow_right (by decide) (by omega)
  have hu : to_u64 ((2 : Int) ^ j) = 2 ^ j := by rw [hpk]; exact to_u64_natCast _ hjlt
  have hpsb : mul64 (2 ^ j) 1024 = 2 ^ (j + 10) := by
    unfold mul64 U64
    rw [pow_add]
    apply Nat.mod_eq_of_lt
    have : 2 ^ j ≤ 2 ^ 9 := Nat.pow_le_pow_right (by decide) hj
    omega
  have hmem : shl64 1 (n : Int) = 2 ^ n := shl64_one n hn63
  have hle : ¬ (2 ^ n < 2 ^ (j + 10)) := by
    have : 2 ^ (j + 10) ≤ 2 ^ n := Nat.pow_le_pow_right (by decide) hn
    omega
  have hlog : log2_int (2 ^ (j + 10)) = (j : Int) + 10 := by
    rw [log2_int_two_pow _ (by omega)]; push_cast; rfl
  have hvpn : shl64 1 ((n : Int) - ((j : Int) + 10)) = 2 ^ (n - (j + 10)) := by
    have : (n : Int) - ((j : Int) + 10) = ((n - (j + 10) : Nat) : Int) := by omega
    rw [this, shl64_one _ (by omega)]
  have hpts : mul64 (2 ^ (n - (j + 10))) PTE_SIZE = 4 * 2 ^ (n - (j + 10)) := by
    unfold mul64 U64 PTE_SIZE
    have : 2 ^ (n - (j + 10)) ≤ 2 ^ 53 := Nat.pow_le_pow_right (by decide) (by omega)
    rw [Nat.mod_eq_of_lt (by omega)]
    ring
  have hdiv : 2 ^ (j + 10) / PTE_SIZE = 2 ^ (j + 8) := by
    unfold PTE_SIZE
    have : 2 ^ (j + 10) = 2 ^ (j + 8) * 4 := by rw [pow_add, pow_add]; ring
    omega
  have hlt31 : 2 ^ (j + 8) < 2 ^ 31 := Nat.pow_lt_pow_right (by decide) (by omega)
  have hti : to_int (2 ^ (j + 8)) = ((2 ^ (j + 8) : Nat) : Int) := to_int_small _ hlt31
  have hpt : log2_int (to_u64 ((2 ^ (j + 8) : Nat) : Int)) = (j : Int) + 8 := by
    rw [to_u64_natCast _ (by omega), log2_int_two_pow _ (by omega)]; push_cast; rfl
  have ha8 : ¬ ((n : Int) < 8 ∨ (n : Int) > 63) := by omega
  unfold main_setup layout_of
  rw [if_neg (by omega : ¬ (t ≠ 1 ∧ t ≠ 2)), if_neg ha8, if_neg hk]
  simp only [hu, hpsb, hmem, if_neg hle, hlog, hvpn, hpts, hdiv, hti, hpt]
  have e1 : ((2 ^ (j + 8) : Nat) : Int) = 2 ^ (j + 8) := by push_cast; rfl
  have e2 : (n : Int) - ((j : Int) + 10) - ((j : Int) + 8) = (n : Int) - 2 * (j : Int) - 18 := by
    ring
  rw [e1, e2]
  split_ifs with h2 <;> simp

theorem main_setup_ok (t a k : Int) (L : Layout) (h : main_setup t a k = Except.ok L) :
    ∃ n j : Nat, (t = 1 ∨ t = 2) ∧ a = (n : Int) ∧ k = 2 ^ j ∧ j ≤ 9 ∧ j + 10 ≤ n ∧ n ≤ 63 ∧
      L = layout_of t n j := by
  have ht : t = 1 ∨ t = 2 := by
    by_contra hc
    unfold main_setup at h
    rw [if_pos (by omega)] at h
    cases h
  have ha : ¬ (a < 8 ∨ a > 63) := by
    intro hc
    unfold main_setup at h
    rw [if_neg (by omega), if_pos hc] at h
    cases h
  have hk : ¬ (is_power_of_two k = false ∨ k < 1 ∨ k > 512) := by
    intro hc
    unfold main_setup at h
    rw [if_neg (by omega), if_neg ha, if_pos hc] at h
    cases h
  obtain ⟨j, hj, rfl⟩ := (page_size_check_iff k).1 hk
  obtain ⟨n, rfl⟩ := Int.eq_ofNat_of_zero_le (by omega : 0 ≤ a)
  have hn63 : n ≤ 63 := by omega
  by_cases hn : j + 10 ≤ n
  · refine ⟨n, j, ht, rfl, rfl, hj, hn, hn63, ?_⟩
    rw [main_setup_eq t n j ht hj hn hn63] at h
    cases h
    rfl
  · exfalso
    have hpk : (2 : Int) ^ j = ((2 ^ j : Nat) : Int) := by push_cast; rfl
    have hjlt : 2 ^ j < 2 ^ 64 := Nat.pow_lt_pow_right (by decide) (by omega)
    have hu : to_u64 ((2 : Int) ^ j) = 2 ^ j := by rw [hpk]; exact to_u64_natCast _ hjlt
    have hpsb : mul64 (2 ^ j) 1024 = 2 ^ (j + 10) := by
      unfold mul64 U64
      rw [pow_add]
      apply Nat.mod_eq_of_lt
      have : 2 ^ j ≤ 2 ^ 9 := Nat.pow_le_pow_right (by decide) hj
      omega
    have hlt : 2 ^ n < 2 ^ (j + 10) := Nat.pow_lt_pow_right (by decide) (by omega)
    unfold main_setup at h
    rw [if_neg (by omega), if_neg ha, if_neg hk] at h
    simp only [hu, hpsb, shl64_one n hn63, if_pos hlt] at h
    cases h

theorem main_setup_bad_type (t a k : Int) (ht : ¬ (t = 1 ∨ t = 2)) :
    main_setup t a k = Except.error ConfigError.bad_type := by
  unfold main_setup
  rw [if_pos (by omega)]

theorem main_setup_bad_address_bits (t a k : Int) (ht : t = 1 ∨ t = 2)
    (ha : a < 8 ∨ a > 63) :
    main_setup t a k = Except.error ConfigError.bad_address_bits := by
  unfold main_setup
  rw [if_neg (by omega), if_pos ha]

theorem main_setup_bad_page_size (t a k : Int) (ht : t = 1 ∨ t = 2)
    (ha : ¬ (a < 8 ∨ a > 63)) (hk : is_power_of_two k = false ∨ k < 1 ∨ k > 512) :
    main_setup t a k = Except.error ConfigError.bad_page_size := by
  unfold main_setup
  rw [if_neg (by omega), if_neg ha, if_pos hk]

theorem main_setup_too_small (t : Int) (n j : Nat) (ht : t = 1 ∨ t = 2)
    (hn8 : 8 ≤ n) (hn63 : n ≤ 63) (hj : j ≤ 9) (hn : n < j + 10) :
    main_setup t (n : Int) (2 ^ j) = Except.error ConfigError.address_space_too_small := by
  have hk := (page_size_check_iff ((2 : Int) ^ j)).2 ⟨j, hj, rfl⟩
  have hpk : (2 : Int) ^ j = ((2 ^ j : Nat) : Int) := by push_cast; rfl
  have hjlt : 2 ^ j < 2 ^ 64 := Nat.pow_lt_pow_right (by decide) (by omega)
  have hu : to_u64 ((2 : Int) ^ j) = 2 ^ j := by rw [hpk]; exact to_u64_natCast _ hjlt
  have hpsb : mul64 (2 ^ j) 1024 = 2 ^ (j + 10) := by
    unfold mul64 U64
    rw [pow_add]
    apply Nat.mod_eq_of_lt
    have : 2 ^ j ≤ 2 ^ 9 := Nat.pow_le_pow_right (by decide) hj
    omega
  have hlt : 2 ^ n < 2 ^ (j + 10) := Nat.pow_lt_pow_right (by decide) hn
  unfold main_setup
  rw [if_neg (by omega), if_neg (by omega), if_neg hk]
  simp only [hu, hpsb, shl64_one n hn63, if_pos hlt]

/-- The four checks of `main_setup` in terms of the exponents: the outcome for a
valid organisation, a width in range and the page size `2 ^ j` KB. -/
theorem main_setup_cases (t a k : Int) :
    (¬ (t = 1 ∨ t = 2) ∧ main_setup t a k = Except.error ConfigError.bad_type) ∨
    ((t = 1 ∨ t = 2) ∧ (a < 8 ∨ a > 63) ∧
      main_setup t a k = Except.error ConfigError.bad_address_bits) ∨
    ((t = 1 ∨ t = 2) ∧ ¬ (a < 8 ∨ a > 63) ∧ (¬ ∃ j : Nat, j ≤ 9 ∧ k = 2 ^ j) ∧
      main_setup t a k = Except.error ConfigError.bad_page_size) ∨
    (∃ n j : Nat, (t = 1 ∨ t = 2) ∧ a = (n : Int) ∧ 8 ≤ n ∧ n ≤ 63 ∧ j ≤ 9 ∧ k = 2 ^ j ∧
      n < j + 10 ∧ main_setup t a k = Except.error ConfigError.address_space_too_small) ∨
    (∃ n j : Nat, (t = 1 ∨ t = 2) ∧ a = (n : Int) ∧ n ≤ 63 ∧ j ≤ 9 ∧ k = 2 ^ j ∧
      j + 10 ≤ n ∧ main_setup t a k = Except.ok (layout_of t n j)) := by
  by_cases ht : t = 1 ∨ t = 2
  · by_cases ha : a < 8 ∨ a > 63
    · exact Or.inr (Or.inl ⟨ht, ha, main_setup_bad_address_bits t a k ht ha⟩)
    · by_cases hk : is_power_of_two k = false ∨ k < 1 ∨ k > 512
      · refine Or.inr (Or.inr (Or.inl ⟨ht, ha, ?_, main_setup_bad_page_size t a k ht ha hk⟩))
        intro hex
        exact (page_size_check_iff k).2 hex hk
      · obtain ⟨j, hj, rfl⟩ := (page_size_check_iff k).1 hk
        obtain ⟨n, rfl⟩ := Int.eq_ofNat_of_zero_le (by omega : 0 ≤ a)
        by_cases hn : j + 10 ≤ n
        · exact Or.inr (Or.inr (Or.inr (Or.inr ⟨n, j, ht, rfl, by omega, hj, rfl, hn,
            main_setup_eq t n j ht hj hn (by omega)⟩)))
        · exact Or.inr (Or.inr (Or.inr (Or.inl ⟨n, j, ht, rfl, by omega, by omega, hj, rfl,
            by omega, main_setup_too_small t n j ht (by omega) (by omega) hj (by omega)⟩)))
  · exact Or.inl ⟨ht, main_setup_bad_type t a k ht⟩

theorem two_pow_mul_le_iff (j n : Nat) :
    (2 : Int) ^ j * 1024 ≤ 2 ^ n ↔ j + 10 ≤ n := by
  have h : (2 : Int) ^ j * 1024 = ((2 ^ (j + 10) : Nat) : Int) := by
    push_cast; rw [pow_add]; norm_num
  have h' : (2 : Int) ^ n = ((2 ^ n : Nat) : Int) := by push_cast; rfl
  rw [h, h', Int.ofNat_le]
  exact Nat.pow_le_pow_iff_right (by decide)

theorem page_size_ok_iff (k : Int) :
    (∃ j : Nat, j ≤ 9 ∧ k = 2 ^ j) ↔ ((∃ j : Nat, k = 2 ^ j) ∧ 1 ≤ k ∧ k ≤ 512) := by
  rw [← page_size_check_iff, not_or, not_or, Bool.not_eq_false, is_power_of_two_iff]
  constructor
  · rintro ⟨h1, h2, h3⟩
    exact ⟨h1, by omega, by omega⟩
  · rintro ⟨h1, h2, h3⟩
    exact ⟨h1, by omega, by omega⟩

/-! ## The shape of a query -/

theorem sub64_shl64_one (m : Nat) (h : m ≤ 63) : sub64 (shl64 1 (m : Int)) 1 = 2 ^ m - 1 := by
  rw [shl64_one m h]
  unfold sub64 U64
  have h1 : 0 < 2 ^ m := by positivity
  have h2 : 2 ^ m < 2 ^ 64 := Nat.pow_lt_pow_right (by decide) (by omega)
  omega

theorem shr64_natCast (x m : Nat) : shr64 x (m : Int) = x / 2 ^ m := by
  unfold shr64
  rw [Int.toNat_ofNat, Nat.shiftRight_eq_div_pow]

theorem shl64_div_or_mod (v m : Nat) (hv : v < 2 ^ 64) :
    shl64 (v / 2 ^ m) (m : Int) ||| v % 2 ^ m = v := by
  unfold shl64 U64
  rw [Int.toNat_ofNat, Nat.shiftLeft_eq]
  have h1 : v / 2 ^ m * 2 ^ m ≤ v := Nat.div_mul_le_self v (2 ^ m)
  rw [Nat.mod_eq_of_lt (by omega), Nat.mul_comm,
    ← Nat.mul_add_lt_is_or (Nat.mod_lt _ (by positivity)) (v / 2 ^ m)]
  exact Nat.div_add_mod v (2 ^ m)

theorem main_query_eq (t : Int) (n j : Nat) (hj : j ≤ 9) (v : Nat) :
    main_query (layout_of t n j) v =
      if v ≥ 2 ^ n then QueryResult.out_of_range (2 ^ n)
      else if t = 2 then
        QueryResult.two_level (v / 2 ^ (j + 10)) (v % 2 ^ (j + 10))
          (v / 2 ^ (j + 10) / 2 ^ (j + 8)) (v / 2 ^ (j + 10) % 2 ^ (j + 8))
          (print_binary v (n : Int))
          (print_binary (v / 2 ^ (j + 10)) ((n : Int) - ((j : Int) + 10)))
          (print_binary (v % 2 ^ (j + 10)) ((j : Int) + 10))
          (print_binary (v / 2 ^ (j + 10) / 2 ^ (j + 8)) ((n : Int) - 2 * (j : Int) - 18))
          (print_binary (v / 2 ^ (j + 10) % 2 ^ (j + 8)) ((j : Int) + 8))
      else
        QueryResult.single_level (v / 2 ^ (j + 10)) (v % 2 ^ (j + 10))
          (print_binary v (n : Int))
          (print_binary (v / 2 ^ (j + 10)) ((n : Int) - ((j : Int) + 10)))
          (print_binary (v % 2 ^ (j + 10)) ((j : Int) + 10)) := by
  have hob : ((j : Int) + 10) = ((j + 10 : Nat) : Int) := by push_cast; rfl
  have hpb : ((j : Int) + 8) = ((j + 8 : Nat) : Int) := by push_cast; rfl
  have hmask : sub64 (shl64 1 ((j : Int) + 10)) 1 = 2 ^ (j + 10) - 1 := by
    rw [hob]; exact sub64_shl64_one _ (by omega)
  have hmask2 : sub64 (shl64 1 ((j : Int) + 8)) 1 = 2 ^ (j + 8) - 1 := by
    rw [hpb]; exact sub64_shl64_one _ (by omega)
  have hshr : ∀ x, shr64 x ((j : Int) + 10) = x / 2 ^ (j + 10) := by
    intro x; rw [hob]; exact shr64_natCast x _
  have hshr2 : ∀ x, shr64 x ((j : Int) + 8) = x / 2 ^ (j + 8) := by
    intro x; rw [hpb]; exact shr64_natCast x _
  unfold main_query layout_of
  by_cases hv : v ≥ 2 ^ n
  · simp only [if_pos hv]
  · by_cases h2 : t = 2
    · simp only [if_neg hv, if_pos h2, hmask, hmask2, hshr, hshr2,
        Nat.and_pow_two_sub_one_eq_mod]
    · simp only [if_neg hv, if_neg h2, hmask, hshr, Nat.and_pow_two_sub_one_eq_mod]

/-! ## Address decomposition -/

/-- C1: for every accepted configuration and every address below `2 ^ address_bits`,
the query is answered with fields, and those fields rebuild the address:
`(vpn << offset_bits) | offset == vaddr`, and in the two-level branch also
`(((pd_index << pt_bits) | pt_index) << offset_bits) | offset == vaddr`
(the shifts being the 64-bit shifts of the program). -/
theorem round_trip (type address_bits page_size_kb : Int) (L : Layout) (vaddr : Nat)
    (hL : main_setup type address_bits page_size_kb = Except.ok L)
    (hv : vaddr < 2 ^ address_bits.toNat) :
    match main_query L vaddr with
    | QueryResult.out_of_range _ => False
    | QueryResult.single_level vpn offset _ _ _ =>
        type = 1 ∧ shl64 vpn L.offset_bits ||| offset = vaddr
    | QueryResult.two_level vpn offset pd_index pt_index _ _ _ _ _ =>
        type = 2 ∧ shl64 vpn L.offset_bits ||| offset = vaddr ∧
          shl64 (shl64 pd_index L.pt_bits ||| pt_index) L.offset_bits ||| offset = vaddr := by
  obtain ⟨n, j, ht, rfl, rfl, hj, hn, hn63, rfl⟩ := main_setup_ok _ _ _ _ hL
  rw [Int.toNat_ofNat] at hv
  have hv64 : vaddr < 2 ^ 64 :=
    lt_of_lt_of_le hv (Nat.pow_le_pow_right (by decide) (by omega))
  have hvpn64 : vaddr / 2 ^ (j + 10) < 2 ^ 64 :=
    lt_of_le_of_lt (Nat.div_le_self _ _) hv64
  have hob : ((j : Int) + 10) = ((j + 10 : Nat) : Int) := by push_cast; rfl
  have hpb : ((j : Int) + 8) = ((j + 8 : Nat) : Int) := by push_cast; rfl
  rw [main_query_eq type n j hj vaddr, if_neg (by omega)]
  by_cases h2 : type = 2
  · rw [if_pos h2]
    simp only [layout_of, if_pos h2]
    rw [hob, hpb, shl64_div_or_mod _ _ hvpn64, shl64_div_or_mod _ _ hv64]
    exact ⟨h2, rfl, rfl⟩
  · rw [if_neg h2]
    simp only [layout_of]
    rw [hob, shl64_div_or_mod _ _ hv64]
    exact ⟨by omega, rfl⟩

/-- Witness of `round_trip`: two-level, 32 address bits, 4 KB pages, address 4097. -/
theorem round_trip_witness :
    ∃ L, main_setup 2 32 4 = Except.ok L ∧ 4097 < 2 ^ (32 : Int).toNat ∧
      match main_query L 4097 with
      | QueryResult.out_of_range _ => False
      | QueryResult.single_level vpn offset _ _ _ =>
          (2 : Int) = 1 ∧ shl64 vpn L.offset_bits ||| offset = 4097
      | QueryResult.two_level vpn offset pd_index pt_index _ _ _ _ _ =>
          (2 : Int) = 2 ∧ shl64 vpn L.offset_bits ||| offset = 4097 ∧
            shl64 (shl64 pd_index L.pt_bits ||| pt_index) L.offset_bits ||| offset = 4097 :=
  ⟨_, rfl, by decide, round_trip 2 32 4 _ 4097 rfl (by decide)⟩

/-- C2: for every accepted configuration and every address below `2 ^ address_bits`,
the decomposition is the arithmetic one: `vpn = vaddr / page_size_bytes`,
`offset = vaddr % page_size_bytes`, and in the two-level branch
`pt_index = vpn % (page_size_bytes / 4)`, `pd_index = vpn / (page_size_bytes / 4)`,
where `page_size_bytes = page_size_kb * 1024`.  In particular type 2 with 32 address
bits and 4 KB pages decomposes 4097 into offset 1, VPN 1, table index 1 and
directory index 0. -/
theorem decomposition_reference (type address_bits page_size_kb : Int) (L : Layout)
    (vaddr : Nat) (hL : main_setup type address_bits page_size_kb = Except.ok L)
    (hv : vaddr < 2 ^ address_bits.toNat) :
    (L.page_size_bytes : Int) = page_size_kb * 1024 ∧
    (match main_query L vaddr with
      | QueryResult.out_of_range _ => False
      | QueryResult.single_level vpn offset _ _ _ =>
          type = 1 ∧ vpn = vaddr / L.page_size_bytes ∧ offset = vaddr % L.page_size_bytes
      | QueryResult.two_level vpn offset pd_index pt_index _ _ _ _ _ =>
          type = 2 ∧ vpn = vaddr / L.page_size_bytes ∧ offset = vaddr % L.page_size_bytes ∧
            pt_index = vpn % (L.page_size_bytes / 4) ∧
            pd_index = vpn / (L.page_size_bytes / 4)) ∧
    (∃ L0 b1 b2 b3 b4 b5, main_setup 2 32 4 = Except.ok L0 ∧
      main_query L0 4097 = QueryResult.two_level 1 1 0 1 b1 b2 b3 b4 b5) := by
  obtain ⟨n, j, ht, rfl, rfl, hj, hn, hn63, rfl⟩ := main_setup_ok _ _ _ _ hL
  rw [Int.toNat_ofNat] at hv
  have hdiv : 2 ^ (j + 10) / 4 = 2 ^ (j + 8) := by
    have : 2 ^ (j + 10) = 2 ^ (j + 8) * 4 := by rw [pow_add, pow_add]; ring
    omega
  refine ⟨?_, ?_, ⟨_, _, _, _, _, _, rfl, rfl⟩⟩
  · simp only [layout_of]
    push_cast
    ring
  · rw [main_query_eq type n j hj vaddr, if_neg (by omega)]
    by_cases h2 : type = 2
    · rw [if_pos h2]
      simp only [layout_of, hdiv]
      refine ⟨h2, ?_, ?_, ?_, ?_⟩ <;> trivial
    · rw [if_neg h2]
      simp only [layout_of]
      refine ⟨by omega, ?_, ?_⟩ <;> trivial

/-- Witness of `decomposition_reference`: single-level, 16 address bits, 1 KB pages,
address 5000. -/
theorem decomposition_reference_witness :
    ∃ L, main_setup 1 16 1 = Except.ok L ∧ 5000 < 2 ^ (16 : Int).toNat ∧
      (L.page_size_bytes : Int) = 1 * 1024 ∧
      (match main_query L 5000 with
        | QueryResult.out_of_range _ => False
        | QueryResult.single_level vpn offset _ _ _ =>
            (1 : Int) = 1 ∧ vpn = 5000 / L.page_size_bytes ∧ offset = 5000 % L.page_size_bytes
        | QueryResult.two_level vpn offset pd_index pt_index _ _ _ _ _ =>
            (1 : Int) = 2 ∧ vpn = 5000 / L.page_size_bytes ∧
              offset = 5000 % L.page_size_bytes ∧
              pt_index = vpn % (L.page_size_bytes / 4) ∧
              pd_index = vpn / (L.page_size_bytes / 4)) ∧
      (∃ L0 b1 b2 b3 b4 b5, main_setup 2 32 4 = Except.ok L0 ∧
        main_query L0 4097 = QueryResult.two_level 1 1 0 1 b1 b2 b3 b4 b5) :=
  ⟨_, rfl, by decide, decomposition_reference 1 16 1 _ 5000 rfl (by decide)⟩

/-- C3: for every accepted configuration and every address read, the query is
answered with the out-of-range error (which carries `mem_size` and no field) if and
only if `vaddr >= 2 ^ address_bits`; otherwise it is answered with decomposed fields.
In particular `2 ^ address_bits` is rejected and `2 ^ address_bits - 1` is decomposed. -/
theorem out_of_range_iff (type address_bits page_size_kb : Int) (L : Layout) (vaddr : Nat)
    (hL : main_setup type address_bits page_size_kb = Except.ok L) :
    L.mem_size = 2 ^ address_bits.toNat ∧
    (main_query L vaddr = QueryResult.out_of_range (2 ^ address_bits.toNat) ↔
      vaddr ≥ 2 ^ address_bits.toNat) ∧
    ((∃ m, main_query L vaddr = QueryResult.out_of_range m) ↔
      vaddr ≥ 2 ^ address_bits.toNat) ∧
    main_query L (2 ^ address_bits.toNat) = QueryResult.out_of_range (2 ^ address_bits.toNat) ∧
    (∀ m, main_query L (2 ^ address_bits.toNat - 1) ≠ QueryResult.out_of_range m) := by
  obtain ⟨n, j, ht, rfl, rfl, hj, hn, hn63, rfl⟩ := main_setup_ok _ _ _ _ hL
  rw [Int.toNat_ofNat]
  have hpos : 0 < 2 ^ n := by positivity
  have key : ∀ v m, main_query (layout_of type n j) v = QueryResult.out_of_range m ↔
      (v ≥ 2 ^ n ∧ m = 2 ^ n) := by
    intro v m
    rw [main_query_eq type n j hj v]
    by_cases hv : v ≥ 2 ^ n
    · rw [if_pos hv]
      constructor
      · intro h
        injection h with h
        exact ⟨hv, h.symm⟩
      · rintro ⟨-, rfl⟩
        rfl
    · rw [if_neg hv]
      constructor
      · intro h
        split_ifs at h
      · rintro ⟨h, -⟩
        exact absurd h hv
  refine ⟨rfl, ?_, ?_, ?_, ?_⟩
  · rw [key]
    exact ⟨fun h => h.1, fun h => ⟨h, rfl⟩⟩
  · constructor
    · rintro ⟨m, hm⟩
      exact ((key vaddr m).1 hm).1
    · intro h
      exact ⟨2 ^ n, (key vaddr _).2 ⟨h, rfl⟩⟩
  · exact (key _ _).2 ⟨le_refl _, rfl⟩
  · intro m hm
    have := ((key _ _).1 hm).1
    omega

/-- Witness of `out_of_range_iff`: two-level, 32 address bits, 4 KB pages; the
address `2 ^ 32` is rejected. -/
theorem out_of_range_iff_witness :
    ∃ L, main_setup 2 32 4 = Except.ok L ∧
      L.mem_size = 2 ^ (32 : Int).toNat ∧
      (main_query L 4294967296 = QueryResult.out_of_range (2 ^ (32 : Int).toNat) ↔
        4294967296 ≥ 2 ^ (32 : Int).toNat) ∧
      ((∃ m, main_query L 4294967296 = QueryResult.out_of_range m) ↔
        4294967296 ≥ 2 ^ (32 : Int).toNat) ∧
      main_query L (2 ^ (32 : Int).toNat) = QueryResult.out_of_range (2 ^ (32 : Int).toNat) ∧
      (∀ m, main_query L (2 ^ (32 : Int).toNat - 1) ≠ QueryResult.out_of_range m) :=
  ⟨_, rfl, out_of_range_iff 2 32 4 _ 4294967296 rfl⟩

/-! ## Validation of the configuration -/

/-- C4 (the code at the failing input): type 2 with 10 address bits and 1 KB pages
passes the organisation, address-width, page-size and address-space checks, the
computed `pd_bits = vpn_bits - pt_bits` is `0 - 8 = -8`, and `main_setup` reports no
error: it produces a layout that carries the negative width, and the shift
`1 << pd_bits` has no defined value. -/
theorem negative_pd_bits_is_accepted :
    ¬ ((2 : Int) ≠ 1 ∧ (2 : Int) ≠ 2) ∧ ¬ ((10 : Int) < 8 ∨ (10 : Int) > 63) ∧
    ¬ (is_power_of_two 1 = false ∨ (1 : Int) < 1 ∨ (1 : Int) > 512) ∧
    ¬ (shl64 1 10 < mul64 (to_u64 1) 1024) ∧
    main_setup 2 10 1 = Except.ok
      { type := 2, address_bits := 10, page_size_kb := 1, mem_size := 1024,
        page_size_bytes := 1024, offset_bits := 10, vpn_bits := 0, total_pages := 1,
        page_table_size := 4, ptes_per_page := 256, pages_in_table := none,
        pd_bits := -8, pt_bits := 8 } := by
  decide

/-- The extent of the missing check: a two-level configuration that passes the
address-width, page-size and address-space checks is never rejected; `main_setup`
produces a layout with `pd_bits = vpn_bits - pt_bits`, which equals
`address_bits - 2 * offset_bits + 2` and is negative exactly when
`address_bits < 2 * offset_bits - 2`. -/
theorem two_level_setup_has_no_split_check (address_bits page_size_kb : Int)
    (ha : ¬ (address_bits < 8 ∨ address_bits > 63))
    (hk : ¬ (is_power_of_two page_size_kb = false ∨ page_size_kb < 1 ∨ page_size_kb > 512))
    (hs : ¬ (shl64 1 address_bits < mul64 (to_u64 page_size_kb) 1024)) :
    ∃ L, main_setup 2 address_bits page_size_kb = Except.ok L ∧
      L.pd_bits = L.vpn_bits - L.pt_bits ∧
      L.pd_bits = address_bits - 2 * L.offset_bits + 2 ∧
      (L.pd_bits < 0 ↔ address_bits < 2 * L.offset_bits - 2) := by
  have hex : ∃ L, main_setup 2 address_bits page_size_kb = Except.ok L := by
    unfold main_setup
    rw [if_neg (by omega), if_neg ha, if_neg hk]
    simp only [if_neg hs]
    exact ⟨_, rfl⟩
  obtain ⟨L, hL⟩ := hex
  refine ⟨L, hL, ?_⟩
  obtain ⟨n, j, ht, rfl, rfl, hj, hn, hn63, rfl⟩ := main_setup_ok _ _ _ _ hL
  simp only [layout_of, if_true]
  refine ⟨by ring, by ring, ?_⟩
  constructor <;> intro h <;> omega

/-- Witness of `two_level_setup_has_no_split_check`: 10 address bits, 1 KB pages. -/
theorem two_level_setup_has_no_split_check_witness :
    ¬ ((10 : Int) < 8 ∨ (10 : Int) > 63) ∧
    ¬ (is_power_of_two 1 = false ∨ (1 : Int) < 1 ∨ (1 : Int) > 512) ∧
    ¬ (shl64 1 10 < mul64 (to_u64 1) 1024) ∧
    ∃ L, main_setup 2 10 1 = Except.ok L ∧
      L.pd_bits = L.vpn_bits - L.pt_bits ∧
      L.pd_bits = 10 - 2 * L.offset_bits + 2 ∧
      (L.pd_bits < 0 ↔ 10 < 2 * L.offset_bits - 2) :=
  ⟨by decide, by decide, by decide,
    two_level_setup_has_no_split_check 10 1 (by decide) (by decide) (by decide)⟩

/-- C5: `main_setup` accepts `(type, address_bits, page_size_kb)` if and only if the
type is 1 or 2, `8 <= address_bits <= 63`, `page_size_kb` is a power of two between 1
and 512, and `page_size_kb * 1024 <= 2 ^ address_bits`; and each error is reported
exactly when its condition is the first one, in the order organisation, address
width, page size, address space, that fails. -/
theorem validation_iff (type address_bits page_size_kb : Int) :
    ((∃ L, main_setup type address_bits page_size_kb = Except.ok L) ↔
      ((type = 1 ∨ type = 2) ∧ (8 ≤ address_bits ∧ address_bits ≤ 63) ∧
        ((∃ j : Nat, page_size_kb = 2 ^ j) ∧ 1 ≤ page_size_kb ∧ page_size_kb ≤ 512) ∧
        page_size_kb * 1024 ≤ 2 ^ address_bits.toNat)) ∧
    (main_setup type address_bits page_size_kb = Except.error ConfigError.bad_type ↔
      ¬ (type = 1 ∨ type = 2)) ∧
    (main_setup type address_bits page_size_kb = Except.error ConfigError.bad_address_bits ↔
      ((type = 1 ∨ type = 2) ∧ ¬ (8 ≤ address_bits ∧ address_bits ≤ 63))) ∧
    (main_setup type address_bits page_size_kb = Except.error ConfigError.bad_page_size ↔
      ((type = 1 ∨ type = 2) ∧ (8 ≤ address_bits ∧ address_bits ≤ 63) ∧
        ¬ ((∃ j : Nat, page_size_kb = 2 ^ j) ∧ 1 ≤ page_size_kb ∧ page_size_kb ≤ 512))) ∧
    (main_setup type address_bits page_size_kb =
        Except.error ConfigError.address_space_too_small ↔
      ((type = 1 ∨ type = 2) ∧ (8 ≤ address_bits ∧ address_bits ≤ 63) ∧
        ((∃ j : Nat, page_size_kb = 2 ^ j) ∧ 1 ≤ page_size_kb ∧ page_size_kb ≤ 512) ∧
        ¬ (page_size_kb * 1024 ≤ 2 ^ address_bits.toNat))) := by
  rw [← page_size_ok_iff]
  rcases main_setup_cases type address_bits page_size_kb with
    ⟨ht, hr⟩ | ⟨ht, ha, hr⟩ | ⟨ht, ha, hk, hr⟩ | ⟨n, j, ht, rfl, hn8, hn63, hj, rfl, hn, hr⟩ |
    ⟨n, j, ht, rfl, hn63, hj, rfl, hn, hr⟩
  · rw [hr]
    simp [ht]
  · have ha2 : ¬ (8 ≤ address_bits ∧ address_bits ≤ 63) := by omega
    rw [hr]
    simp [ht, ha2]
  · have ha2 : 8 ≤ address_bits ∧ address_bits ≤ 63 := by omega
    rw [hr]
    simp [ht, ha2, hk]
  · have ha2 : 8 ≤ (n : Int) ∧ (n : Int) ≤ 63 := by omega
    have hs : (2 : Int) ^ n < 2 ^ j * 1024 := by
      rw [← not_le, two_pow_mul_le_iff]; omega
    rw [hr]
    simp [ht, ha2, hj, hs]
  · have ha2 : 8 ≤ (n : Int) ∧ (n : Int) ≤ 63 := by omega
    have hs : (2 : Int) ^ j * 1024 ≤ 2 ^ n := by
      rw [two_pow_mul_le_iff]; omega
    rw [hr]
    simp [ht, ha2, hj, hs]

/-- C6 (counterexample): no organisation and no page size make a configuration with
`address_bits = 8` accepted. -/
theorem no_accepted_configuration_with_8_bits :
    ¬ ∃ (type page_size_kb : Int) (L : Layout), main_setup type 8 page_size_kb = Except.ok L := by
  rintro ⟨type, k, L, hL⟩
  obtain ⟨n, j, -, ha, -, -, hn, -, -⟩ := main_setup_ok _ _ _ _ hL
  omega

/-- C6 (amended): `address_bits = 8` passes the address-width check, but every
configuration with 8 address bits is rejected: with a valid organisation and an
allowed page size the error is "address space too small", the smallest page being
`2 ^ 10` bytes.  The smallest accepted width is 10.  A configuration with
`address_bits = 63` is accepted, and with `address_bits = 7` or `64` every
configuration is rejected (by the address-width check when the organisation is valid). -/
theorem address_width_boundary :
    (∀ type k : Int, main_setup type 8 k ≠ Except.error ConfigError.bad_address_bits) ∧
    (∀ type k : Int, (type = 1 ∨ type = 2) →
      ¬ (is_power_of_two k = false ∨ k < 1 ∨ k > 512) →
      main_setup type 8 k = Except.error ConfigError.address_space_too_small) ∧
    (∀ (type a k : Int) (L : Layout), main_setup type a k = Except.ok L → 10 ≤ a) ∧
    (∃ L, main_setup 1 10 1 = Except.ok L) ∧
    (∃ L, main_setup 1 63 1 = Except.ok L) ∧
    (∀ (type k : Int) (L : Layout), main_setup type 7 k ≠ Except.ok L) ∧
    (∀ (type k : Int) (L : Layout), main_setup type 64 k ≠ Except.ok L) ∧
    (∀ type k : Int, (type = 1 ∨ type = 2) →
      main_setup type 7 k = Except.error ConfigError.bad_address_bits ∧
      main_setup type 64 k = Except.error ConfigError.bad_address_bits) := by
  refine ⟨?_, ?_, ?_, ⟨_, rfl⟩, ⟨_, rfl⟩, ?_, ?_, ?_⟩
  · intro type k h
    rcases main_setup_cases type 8 k with
      ⟨-, hr⟩ | ⟨-, ha, -⟩ | ⟨-, -, -, hr⟩ | ⟨n, j, -, -, -, -, -, -, -, hr⟩ |
      ⟨n, j, -, -, -, -, -, -, hr⟩
    · rw [hr] at h; cases h
    · omega
    · rw [hr] at h; cases h
    · rw [hr] at h; cases h
    · rw [hr] at h; cases h
  · intro type k ht hk
    obtain ⟨j, hj, rfl⟩ := (page_size_check_iff k).1 hk
    exact main_setup_too_small type 8 j ht (by omega) (by omega) hj (by omega)
  · intro type a k L hL
    obtain ⟨n, j, -, ha, -, -, hn, -, -⟩ := main_setup_ok _ _ _ _ hL
    omega
  · intro type k L hL
    obtain ⟨n, j, -, ha, -, -, hn, -, -⟩ := main_setup_ok _ _ _ _ hL
    omega
  · intro type k L hL
    obtain ⟨n, j, -, ha, -, -, hn, hn63, -⟩ := main_setup_ok _ _ _ _ hL
    omega
  · intro type k ht
    exact ⟨main_setup_bad_address_bits type 7 k ht (by omega),
      main_setup_bad_address_bits type 64 k ht (by omega)⟩

/-- Witness of `address_width_boundary`: single-level, 8 address bits, 1 KB pages is
rejected by the address-space check. -/
theorem address_width_boundary_witness :
    ((1 : Int) = 1 ∨ (1 : Int) = 2) ∧
    ¬ (is_power_of_two 1 = false ∨ (1 : Int) < 1 ∨ (1 : Int) > 512) ∧
    main_setup 1 8 1 = Except.error ConfigError.address_space_too_small :=
  ⟨by decide, by decide, address_width_boundary.2.1 1 1 (by decide) (by decide)⟩

/-- C7: the page-size check of `main_setup` passes exactly for the ten sizes
1, 2, 4, ..., 512 KB (for every integer, in particular every 32-bit one);
`is_power_of_two n` holds exactly when `n = 2 ^ j` for some `j >= 0`, and fails for
every `n <= 0`.  With a valid organisation and a wide enough address space 1 KB and
512 KB pages are accepted, and 3 KB and 1024 KB pages are rejected with the page-size
error. -/
theorem page_size_boundary :
    (∀ k : Int, ¬ (is_power_of_two k = false ∨ k < 1 ∨ k > 512) ↔
      k ∈ ([1, 2, 4, 8, 16, 32, 64, 128, 256, 512] : List Int)) ∧
    (∀ n : Int, is_power_of_two n = true ↔ ∃ j : Nat, n = 2 ^ j) ∧
    (∀ n : Int, n ≤ 0 → is_power_of_two n = false) ∧
    (∀ type a : Int, (type = 1 ∨ type = 2) → 10 ≤ a → a ≤ 63 →
      ∃ L, main_setup type a 1 = Except.ok L) ∧
    (∀ type a : Int, (type = 1 ∨ type = 2) → 19 ≤ a → a ≤ 63 →
      ∃ L, main_setup type a 512 = Except.ok L) ∧
    (∀ type a : Int, (type = 1 ∨ type = 2) → 8 ≤ a → a ≤ 63 →
      main_setup type a 3 = Except.error ConfigError.bad_page_size ∧
      main_setup type a 1024 = Except.error ConfigError.bad_page_size) ∧
    (∀ (type a : Int) (L : Layout),
      main_setup type a 3 ≠ Except.ok L ∧ main_setup type a 1024 ≠ Except.ok L) := by
  have hlist : ∀ k : Int, (∃ j : Nat, j ≤ 9 ∧ k = 2 ^ j) ↔
      k ∈ ([1, 2, 4, 8, 16, 32, 64, 128, 256, 512] : List Int) := by
    intro k
    constructor
    · rintro ⟨j, hj, rfl⟩
      interval_cases j <;> simp
    · intro h
      simp only [List.mem_cons, List.mem_singleton, List.not_mem_nil, or_false] at h
      rcases h with h | h | h | h | h | h | h | h | h | h <;> subst h
      · exact ⟨0, by norm_num, by norm_num⟩
      · exact ⟨1, by norm_num, by norm_num⟩
      · exact ⟨2, by norm_num, by norm_num⟩
      · exact ⟨3, by norm_num, by norm_num⟩
      · exact ⟨4, by norm_num, by norm_num⟩
      · exact ⟨5, by norm_num, by norm_num⟩
      · exact ⟨6, by norm_num, by norm_num⟩
      · exact ⟨7, by norm_num, by norm_num⟩
      · exact ⟨8, by norm_num, by norm_num⟩
      · exact ⟨9, by norm_num, by norm_num⟩
  have h3 : is_power_of_two 3 = false ∨ (3 : Int) < 1 ∨ (3 : Int) > 512 := by decide
  have h1024 : is_power_of_two 1024 = false ∨ (1024 : Int) < 1 ∨ (1024 : Int) > 512 := by
    decide
  refine ⟨?_, is_power_of_two_iff, ?_, ?_, ?_, ?_, ?_⟩
  · intro k
    rw [page_size_check_iff, hlist]
  · intro n hn
    rw [← Bool.not_eq_true, is_power_of_two_iff]
    rintro ⟨j, rfl⟩
    have : (0 : Int) < 2 ^ j := by positivity
    omega
  · intro type a ht h10 h63
    obtain ⟨n, rfl⟩ := Int.eq_ofNat_of_zero_le (by omega : 0 ≤ a)
    exact ⟨_, main_setup_eq type n 0 ht (by omega) (by omega) (by omega)⟩
  · intro type a ht h19 h63
    obtain ⟨n, rfl⟩ := Int.eq_ofNat_of_zero_le (by omega : 0 ≤ a)
    exact ⟨_, main_setup_eq type n 9 ht (by omega) (by omega) (by omega)⟩
  · intro type a ht h8 h63
    exact ⟨main_setup_bad_page_size type a 3 ht (by omega) h3,
      main_setup_bad_page_size type a 1024 ht (by omega) h1024⟩
  · intro type a L
    constructor
    · intro hL
      obtain ⟨n, j, -, -, hk, hj, -, -, -⟩ := main_setup_ok _ _ _ _ hL
      exact (page_size_check_iff 3).2 ⟨j, hj, hk⟩ h3
    · intro hL
      obtain ⟨n, j, -, -, hk, hj, -, -, -⟩ := main_setup_ok _ _ _ _ hL
      exact (page_size_check_iff 1024).2 ⟨j, hj, hk⟩ h1024

/-- Witness of `page_size_boundary`: two-level, 32 address bits, 512 KB pages is
accepted, and 3 KB pages are rejected. -/
theorem page_size_boundary_witness :
    ((2 : Int) = 1 ∨ (2 : Int) = 2) ∧ (19 : Int) ≤ 32 ∧ (32 : Int) ≤ 63 ∧
    (∃ L, main_setup 2 32 512 = Except.ok L) ∧
    main_setup 2 32 3 = Except.error ConfigError.bad_page_size :=
  ⟨by decide, by decide, by decide,
    page_size_boundary.2.2.2.2.1 2 32 (by decide) (by decide) (by decide),
    (page_size_boundary.2.2.2.2.2.1 2 32 (by decide) (by decide) (by decide)).1⟩

/-! ## Statistics of the layout -/

/-- C8 (the code at the failing input): type 2 with 63 address bits and 1 KB pages is
accepted with `pd_bits = 45`; the `int` shift `1 << pd_bits` has no value there
(`pages_in_table = none`), and no 32-bit `int` can hold `2 ^ 45`, while the sibling
`total_pages`, computed with `1ULL <<`, is exactly `2 ^ 53`.  The same happens from
`pd_bits = 31` on (49 address bits, 1 KB pages). -/
theorem pages_in_table_overflows :
    main_setup 2 63 1 = Except.ok
      { type := 2, address_bits := 63, page_size_kb := 1, mem_size := 2 ^ 63,
        page_size_bytes := 1024, offset_bits := 10, vpn_bits := 53, total_pages := 2 ^ 53,
        page_table_size := 2 ^ 55, ptes_per_page := 256, pages_in_table := none,
        pd_bits := 45, pt_bits := 8 } ∧
    INT_MAX < 2 ^ 45 ∧
    (∃ L, main_setup 2 49 1 = Except.ok L ∧ L.pd_bits = 31 ∧ L.pages_in_table = none) ∧
    INT_MAX < 2 ^ 31 := by
  refine ⟨by decide, by decide, ⟨_, rfl, by decide, by decide⟩, by decide⟩

/-- C9 (the code at the failing input): type 2 with 10 address bits and 1 KB pages is
accepted with `pd_bits = -8`, `pt_bits = 8` and `vpn_bits = 0`: `2 ^ pd_bits` is not a
natural number, and no natural number of directory entries times the `2 ^ 8` entries
of a table gives the `2 ^ 0 = 1` virtual page. -/
theorem directory_times_table_ne_total_pages :
    ∃ L, main_setup 2 10 1 = Except.ok L ∧
      L.pd_bits = -8 ∧ L.pt_bits = 8 ∧ L.vpn_bits = 0 ∧ L.total_pages = 1 ∧
      (∀ d : Nat, d * 2 ^ L.pt_bits.toNat ≠ 2 ^ L.vpn_bits.toNat) ∧
      2 ^ L.pd_bits.toNat * 2 ^ L.pt_bits.toNat ≠ 2 ^ L.vpn_bits.toNat := by
  refine ⟨_, rfl, by decide, by decide, by decide, by decide, ?_, by decide⟩
  intro d
  show d * 2 ^ 8 ≠ 2 ^ 0
  omega

/-- Where the two-level split is sound: for every accepted two-level configuration
`pd_bits + pt_bits = vpn_bits`; and whenever `pd_bits >= 0`, as natural-number powers
`2 ^ pd_bits * 2 ^ pt_bits = 2 ^ vpn_bits`, which is the total number of virtual
pages. -/
theorem two_level_split (address_bits page_size_kb : Int) (L : Layout)
    (hL : main_setup 2 address_bits page_size_kb = Except.ok L) :
    L.pd_bits + L.pt_bits = L.vpn_bits ∧
    (0 ≤ L.pd_bits →
      2 ^ L.pd_bits.toNat * 2 ^ L.pt_bits.toNat = 2 ^ L.vpn_bits.toNat ∧
      2 ^ L.vpn_bits.toNat = L.total_pages) := by
  obtain ⟨n, j, ht, rfl, rfl, hj, hn, hn63, rfl⟩ := main_setup_ok _ _ _ _ hL
  simp only [layout_of, if_true]
  refine ⟨by ring, ?_⟩
  intro hpd
  have e1 : ((n : Int) - 2 * (j : Int) - 18).toNat = n - 2 * j - 18 := by omega
  have e2 : ((j : Int) + 8).toNat = j + 8 := by omega
  have e3 : ((n : Int) - ((j : Int) + 10)).toNat = n - (j + 10) := by omega
  rw [e1, e2, e3, ← pow_add]
  exact ⟨by congr 1; omega, rfl⟩

/-- Witness of `two_level_split`: 32 address bits, 4 KB pages. -/
theorem two_level_split_witness :
    ∃ L, main_setup 2 32 4 = Except.ok L ∧
      L.pd_bits + L.pt_bits = L.vpn_bits ∧
      (0 ≤ L.pd_bits →
        2 ^ L.pd_bits.toNat * 2 ^ L.pt_bits.toNat = 2 ^ L.vpn_bits.toNat ∧
        2 ^ L.vpn_bits.toNat = L.total_pages) :=
  ⟨_, rfl, two_level_split 32 4 _ rfl⟩

/-- C10: for every accepted configuration `total_pages = 2 ^ vpn_bits` and
`page_table_size = 4 * total_pages` as exact integers (`vpn_bits` is between 0 and 53,
so neither value reaches `2 ^ 64` and the 64-bit arithmetic does not wrap), and
`total_pages * page_size_bytes = 2 ^ address_bits`.  In particular 32 address bits with
4 KB pages give `offset_bits = 12`, `vpn_bits = 20`, `total_pages = 1048576` and
`page_table_size = 4194304`. -/
theorem page_statistics_exact (type address_bits page_size_kb : Int) (L : Layout)
    (hL : main_setup type address_bits page_size_kb = Except.ok L) :
    (0 ≤ L.vpn_bits ∧ L.vpn_bits ≤ 53) ∧
    L.total_pages = 2 ^ L.vpn_bits.toNat ∧
    L.page_table_size = 4 * L.total_pages ∧
    4 * L.total_pages < 2 ^ 64 ∧
    L.total_pages * L.page_size_bytes = 2 ^ address_bits.toNat ∧
    (∃ L0, main_setup 1 32 4 = Except.ok L0 ∧ L0.offset_bits = 12 ∧ L0.vpn_bits = 20 ∧
      L0.total_pages = 1048576 ∧ L0.page_table_size = 4194304) := by
  obtain ⟨n, j, ht, rfl, rfl, hj, hn, hn63, rfl⟩ := main_setup_ok _ _ _ _ hL
  simp only [layout_of]
  have e3 : ((n : Int) - ((j : Int) + 10)).toNat = n - (j + 10) := by omega
  have hle : 2 ^ (n - (j + 10)) ≤ 2 ^ 53 := Nat.pow_le_pow_right (by decide) (by omega)
  refine ⟨⟨by omega, by omega⟩, by rw [e3], trivial, by omega, ?_, ⟨_, rfl, by decide,
    by decide, by decide, by decide⟩⟩
  rw [Int.toNat_ofNat, ← pow_add]
  congr 1
  omega

/-- Witness of `page_statistics_exact`: two-level, 63 address bits, 1 KB pages, the
configuration with the largest number of pages. -/
theorem page_statistics_exact_witness :
    ∃ L, main_setup 2 63 1 = Except.ok L ∧
      (0 ≤ L.vpn_bits ∧ L.vpn_bits ≤ 53) ∧
      L.total_pages = 2 ^ L.vpn_bits.toNat ∧
      L.page_table_size = 4 * L.total_pages ∧
      4 * L.total_pages < 2 ^ 64 ∧
      L.total_pages * L.page_size_bytes = 2 ^ (63 : Int).toNat ∧
      (∃ L0, main_setup 1 32 4 = Except.ok L0 ∧ L0.offset_bits = 12 ∧ L0.vpn_bits = 20 ∧
        L0.total_pages = 1048576 ∧ L0.page_table_size = 4194304) :=
  ⟨_, rfl, page_statistics_exact 2 63 1 _ rfl⟩

/-! ## Auxiliary lemmas on `print_binary` -/

theorem print_binary_loop_length (v n : Nat) : (print_binary_loop v n).length = n := by
  induction n with
  | zero => rfl
  | succ n ih => simp [print_binary_loop, ih]

theorem print_binary_loop_digits (v n : Nat) :
    ∀ c ∈ print_binary_loop v n, c = '0' ∨ c = '1' := by
  induction n with
  | zero =>
    intro c hc
    simp [print_binary_loop] at hc
  | succ n ih =>
    intro c hc
    rw [print_binary_loop, List.mem_cons] at hc
    rcases hc with hc | hc
    · by_cases hb : (v >>> n) &&& 1 = 1
      · rw [if_pos hb] at hc
        exact Or.inr hc
      · rw [if_neg hb] at hc
        exact Or.inl hc
    · exact ih c hc

theorem print_binary_loop_get (v n i : Nat) (h : i < n) :
    (print_binary_loop v n)[i]? =
      some (if (v >>> (n - 1 - i)) &&& 1 = 1 then '1' else '0') := by
  induction n generalizing i with
  | zero => omega
  | succ n ih =>
    cases i with
    | zero => simp [print_binary_loop]
    | succ i =>
      have e : n + 1 - 1 - (i + 1) = n - 1 - i := by omega
      rw [print_binary_loop, List.getElem?_cons_succ, ih i (by omega), e]

theorem print_binary_loop_foldl (v n acc : Nat) :
    (print_binary_loop v n).foldl (fun a c => 2 * a + (if c = '1' then 1 else 0)) acc =
      acc * 2 ^ n + v % 2 ^ n := by
  induction n generalizing acc with
  | zero => simp [print_binary_loop, Nat.mod_one]
  | succ n ih =>
    rw [print_binary_loop, List.foldl_cons, ih, Nat.mod_pow_succ, Nat.shiftRight_eq_div_pow,
      Nat.and_one_is_mod]
    have hb : v / 2 ^ n % 2 = 0 ∨ v / 2 ^ n % 2 = 1 := by omega
    rcases hb with hb | hb
    · rw [hb]
      simp
      ring
    · rw [hb]
      simp
      ring

theorem binary_value_print_binary_loop (v n : Nat) :
    binary_value (print_binary_loop v n) = v % 2 ^ n := by
  unfold binary_value
  rw [print_binary_loop_foldl]
  simp

theorem print_binary_loop_congr (v w n : Nat)
    (h : ∀ i, i < n → v / 2 ^ i % 2 = w / 2 ^ i % 2) :
    print_binary_loop v n = print_binary_loop w n := by
  induction n with
  | zero => rfl
  | succ n ih =>
    have hn := h n (by omega)
    rw [print_binary_loop, print_binary_loop, ih (fun i hi => h i (by omega)),
      Nat.shiftRight_eq_div_pow, Nat.shiftRight_eq_div_pow, Nat.and_one_is_mod,
      Nat.and_one_is_mod, hn]

theorem div_pow_mod_two_of_mod (v n i : Nat) (h : i < n) :
    v % 2 ^ n / 2 ^ i % 2 = v / 2 ^ i % 2 := by
  obtain ⟨k, rfl⟩ : ∃ k, n = i + (k + 1) := ⟨n - i - 1, by omega⟩
  rw [pow_add, Nat.mod_mul_right_div_self, Nat.mod_mod_of_dvd]
  exact Dvd.intro_left (2 ^ k) (by rw [pow_succ])

theorem print_binary_loop_mod (v n : Nat) :
    print_binary_loop (v % 2 ^ n) n = print_binary_loop v n :=
  print_binary_loop_congr _ _ _ (fun i hi => div_pow_mod_two_of_mod v n i hi)

theorem print_binary_loop_append (v a b : Nat) :
    print_binary_loop v (a + b) =
      print_binary_loop (v / 2 ^ b) a ++ print_binary_loop (v % 2 ^ b) b := by
  induction a with
  | zero =>
    rw [Nat.zero_add, print_binary_loop_mod]
    rfl
  | succ a ih =>
    have e : a + 1 + b = (a + b) + 1 := by omega
    have hd : v / 2 ^ b / 2 ^ a = v / 2 ^ (a + b) := by
      rw [Nat.div_div_eq_div_mul, ← pow_add, Nat.add_comm]
    rw [e, print_binary_loop, print_binary_loop, ih, Nat.shiftRight_eq_div_pow,
      Nat.shiftRight_eq_div_pow, hd]
    rfl

theorem print_binary_length (v : Nat) (bits : Int) :
    (print_binary v bits).length = bits.toNat :=
  print_binary_loop_length v bits.toNat

theorem print_binary_loop_zero (n : Nat) : ∀ c ∈ print_binary_loop 0 n, c = '0' := by
  induction n with
  | zero =>
    intro c hc
    simp [print_binary_loop] at hc
  | succ n ih =>
    intro c hc
    rw [print_binary_loop, List.mem_cons] at hc
    rcases hc with hc | hc
    · rw [hc]
      simp
    · exact ih c hc

theorem print_binary_append (v a b : Nat) :
    print_binary v ((a : Int) + (b : Int)) =
      print_binary (v / 2 ^ b) (a : Int) ++ print_binary (v % 2 ^ b) (b : Int) := by
  unfold print_binary
  have e : ((a : Int) + (b : Int)).toNat = a + b := by omega
  rw [e, Int.toNat_ofNat, Int.toNat_ofNat]
  exact print_binary_loop_append v a b

theorem print_binary_split (v n b : Nat) (h : b ≤ n) :
    print_binary v (n : Int) =
      print_binary (v / 2 ^ b) ((n - b : Nat) : Int) ++ print_binary (v % 2 ^ b) (b : Int) := by
  rw [← print_binary_append]
  congr 1
  omega

theorem binary_value_print_binary (v m : Nat) (h : v < 2 ^ m) :
    binary_value (print_binary v (m : Int)) = v := by
  unfold print_binary
  rw [Int.toNat_ofNat, binary_value_print_binary_loop, Nat.mod_eq_of_lt h]

theorem div_two_pow_lt (v a b : Nat) (h : v < 2 ^ (a + b)) : v / 2 ^ b < 2 ^ a := by
  apply Nat.div_lt_of_lt_mul
  rw [← pow_add, Nat.add_comm]
  exact h

theorem print_binary_loop_checked_eq (v n : Nat) :
    print_binary_loop_checked v n =
      if n ≤ 64 then some (print_binary_loop v n) else none := by
  induction n with
  | zero => rfl
  | succ n ih =>
    rw [print_binary_loop_checked, ih, shr64_checked]
    by_cases h : n < 64
    · rw [if_pos h, if_pos (by omega : n ≤ 64), if_pos (by omega : n + 1 ≤ 64),
        print_binary_loop]
    · rw [if_neg h, if_neg (by omega : ¬ n + 1 ≤ 64)]

theorem print_binary_checked_eq (v : Nat) (bits : Int) (h : bits ≤ 64) :
    print_binary_checked v bits = some (print_binary v bits) := by
  unfold print_binary_checked print_binary
  rw [print_binary_loop_checked_eq, if_pos (by omega)]

/-! ## Bit widths of the layout -/

/-- C11: for every accepted configuration `offset_bits` is the exact base-2 logarithm
of the page size in bytes: `2 ^ offset_bits = page_size_kb * 1024 = page_size_bytes`,
`offset_bits = log2 page_size_bytes = 10 + log2 page_size_kb` (the logarithm of
`page_size_kb` being exact as well); `vpn_bits = address_bits - offset_bits`, and
`offset_bits + vpn_bits = address_bits`. -/
theorem offset_bits_exact (type address_bits page_size_kb : Int) (L : Layout)
    (hL : main_setup type address_bits page_size_kb = Except.ok L) :
    0 ≤ L.offset_bits ∧
    ((2 ^ L.offset_bits.toNat : Nat) : Int) = page_size_kb * 1024 ∧
    2 ^ L.offset_bits.toNat = L.page_size_bytes ∧
    L.offset_bits = (Nat.log 2 L.page_size_bytes : Int) ∧
    2 ^ Nat.log 2 page_size_kb.toNat = page_size_kb.toNat ∧
    L.offset_bits = 10 + (Nat.log 2 page_size_kb.toNat : Int) ∧
    L.vpn_bits = address_bits - L.offset_bits ∧
    L.offset_bits + L.vpn_bits = address_bits := by
  obtain ⟨n, j, ht, rfl, rfl, hj, hn, hn63, rfl⟩ := main_setup_ok _ _ _ _ hL
  simp only [layout_of]
  have e1 : ((j : Int) + 10).toNat = j + 10 := by omega
  have e2 : ((2 : Int) ^ j).toNat = 2 ^ j := by
    have : (2 : Int) ^ j = ((2 ^ j : Nat) : Int) := by push_cast; rfl
    rw [this, Int.toNat_ofNat]
  rw [e1, e2, Nat.log_pow (by decide), Nat.log_pow (by decide)]
  refine ⟨by omega, ?_, ?_, ?_, ?_, ?_, ?_, ?_⟩
  · push_cast
    rw [pow_add]
    norm_num
  · trivial
  · push_cast
    rfl
  · trivial
  · ring
  · trivial
  · ring

/-- Witness of `offset_bits_exact`: two-level, 32 address bits, 4 KB pages. -/
theorem offset_bits_exact_witness :
    ∃ L, main_setup 2 32 4 = Except.ok L ∧
      0 ≤ L.offset_bits ∧
      ((2 ^ L.offset_bits.toNat : Nat) : Int) = 4 * 1024 ∧
      2 ^ L.offset_bits.toNat = L.page_size_bytes ∧
      L.offset_bits = (Nat.log 2 L.page_size_bytes : Int) ∧
      2 ^ Nat.log 2 (4 : Int).toNat = (4 : Int).toNat ∧
      L.offset_bits = 10 + (Nat.log 2 (4 : Int).toNat : Int) ∧
      L.vpn_bits = 32 - L.offset_bits ∧
      L.offset_bits + L.vpn_bits = 32 :=
  ⟨_, rfl, offset_bits_exact 2 32 4 _ rfl⟩

/-- C12: for every accepted two-level configuration
`ptes_per_page = page_size_bytes / 4` with `ptes_per_page * 4 = page_size_bytes`,
`pt_bits` is its exact logarithm (`2 ^ pt_bits = ptes_per_page`, so
`pt_bits = offset_bits - 2`), and `pd_bits = vpn_bits - pt_bits`.  In particular 32
address bits with 4 KB pages give 1024 entries per table, `pt_bits = 10` and
`pd_bits = 10`. -/
theorem table_index_bits_exact (address_bits page_size_kb : Int) (L : Layout)
    (hL : main_setup 2 address_bits page_size_kb = Except.ok L) :
    L.ptes_per_page = ((L.page_size_bytes / 4 : Nat) : Int) ∧
    L.ptes_per_page * 4 = (L.page_size_bytes : Int) ∧
    0 ≤ L.pt_bits ∧
    ((2 ^ L.pt_bits.toNat : Nat) : Int) = L.ptes_per_page ∧
    L.pt_bits = (Nat.log 2 L.ptes_per_page.toNat : Int) ∧
    L.pt_bits = L.offset_bits - 2 ∧
    L.pd_bits = L.vpn_bits - L.pt_bits ∧
    (∃ L0, main_setup 2 32 4 = Except.ok L0 ∧ L0.ptes_per_page = 1024 ∧ L0.pt_bits = 10 ∧
      L0.pd_bits = 10) := by
  obtain ⟨n, j, ht, rfl, rfl, hj, hn, hn63, rfl⟩ := main_setup_ok _ _ _ _ hL
  simp only [layout_of, if_true]
  have hdiv : 2 ^ (j + 10) / 4 = 2 ^ (j + 8) := by
    have : 2 ^ (j + 10) = 2 ^ (j + 8) * 4 := by rw [pow_add, pow_add]; ring
    omega
  have e1 : ((j : Int) + 8).toNat = j + 8 := by omega
  have e2 : ((2 : Int) ^ (j + 8)).toNat = 2 ^ (j + 8) := by
    have : (2 : Int) ^ (j + 8) = ((2 ^ (j + 8) : Nat) : Int) := by push_cast; rfl
    rw [this, Int.toNat_ofNat]
  rw [hdiv, e1, e2, Nat.log_pow (by decide)]
  refine ⟨?_, ?_, by omega, ?_, ?_, by ring, by ring,
    ⟨_, rfl, by decide, by decide, by decide⟩⟩
  · push_cast
    rfl
  · push_cast
    rw [pow_add, pow_add]
    norm_num
    ring
  · push_cast
    rfl
  · push_cast
    rfl

/-- Witness of `table_index_bits_exact`: 10 address bits, 1 KB pages (where `pd_bits`
is negative). -/
theorem table_index_bits_exact_witness :
    ∃ L, main_setup 2 10 1 = Except.ok L ∧
      L.ptes_per_page = ((L.page_size_bytes / 4 : Nat) : Int) ∧
      L.ptes_per_page * 4 = (L.page_size_bytes : Int) ∧
      0 ≤ L.pt_bits ∧
      ((2 ^ L.pt_bits.toNat : Nat) : Int) = L.ptes_per_page ∧
      L.pt_bits = (Nat.log 2 L.ptes_per_page.toNat : Int) ∧
      L.pt_bits = L.offset_bits - 2 ∧
      L.pd_bits = L.vpn_bits - L.pt_bits ∧
      (∃ L0, main_setup 2 32 4 = Except.ok L0 ∧ L0.ptes_per_page = 1024 ∧ L0.pt_bits = 10 ∧
        L0.pd_bits = 10) :=
  ⟨_, rfl, table_index_bits_exact 10 1 _ rfl⟩

/-! ## Binary rendering -/

/-- C13 (counterexample): two-level with 16 address bits and 1 KB pages is accepted
with `pd_bits = -2`, and the report for address 5 renders the directory index as the
empty string, whose length 0 is not the declared width; and `print_binary(1, 65)`
evaluates `value >> 64`, which C leaves undefined, so the claim does not hold for
every width `bits >= 0` either. -/
theorem directory_string_not_of_declared_width :
    (∃ L, main_setup 2 16 1 = Except.ok L ∧ L.pd_bits = -2 ∧
      main_query L 5 =
        QueryResult.two_level 0 5 0 0 (print_binary 5 16) (print_binary 0 6)
          (print_binary 5 10) [] (print_binary 0 8) ∧
      (([] : List Char).length : Int) ≠ L.pd_bits) ∧
    print_binary_checked 1 65 = none := by
  refine ⟨⟨_, rfl, by decide, by decide, by decide⟩, by decide⟩

/-- C13 (amended): for every value and every width `0 <= bits <= 64`, the call
`print_binary value bits` is defined and emits exactly `bits` characters, each `'0'` or
`'1'`, most significant first (the character at position `i` is bit `bits - 1 - i` of
the value), and the string read as a binary number is `value % 2 ^ bits`; for the
value zero it is `bits` zeros.  Hence in every report of a query each rendered field
with a non-negative declared width has exactly that length: the address, the VPN,
the offset and the table index always, and the directory index when `pd_bits >= 0`. -/
theorem print_binary_rendering :
    (∀ (value : Nat) (bits : Int), 0 ≤ bits → bits ≤ 64 →
      print_binary_checked value bits = some (print_binary value bits) ∧
      ((print_binary value bits).length : Int) = bits ∧
      (∀ c ∈ print_binary value bits, c = '0' ∨ c = '1') ∧
      (∀ i : Nat, (i : Int) < bits →
        (print_binary value bits)[i]? =
          some (if (value >>> (bits.toNat - 1 - i)) &&& 1 = 1 then '1' else '0')) ∧
      binary_value (print_binary value bits) = value % 2 ^ bits.toNat ∧
      ((print_binary 0 bits).length : Int) = bits ∧
      (∀ c ∈ print_binary 0 bits, c = '0')) ∧
    (∀ (type address_bits page_size_kb : Int) (L : Layout) (vaddr : Nat),
      main_setup type address_bits page_size_kb = Except.ok L →
      vaddr < 2 ^ address_bits.toNat →
      match main_query L vaddr with
      | QueryResult.out_of_range _ => False
      | QueryResult.single_level _ _ vaddr_bin vpn_bin offset_bin =>
          (vaddr_bin.length : Int) = L.address_bits ∧ (vpn_bin.length : Int) = L.vpn_bits ∧
            (offset_bin.length : Int) = L.offset_bits
      | QueryResult.two_level _ _ _ _ vaddr_bin vpn_bin offset_bin pd_bin pt_bin =>
          (vaddr_bin.length : Int) = L.address_bits ∧ (vpn_bin.length : Int) = L.vpn_bits ∧
            (offset_bin.length : Int) = L.offset_bits ∧ (pt_bin.length : Int) = L.pt_bits ∧
            (0 ≤ L.pd_bits → (pd_bin.length : Int) = L.pd_bits)) := by
  constructor
  · intro value bits hb hb64
    refine ⟨print_binary_checked_eq value bits hb64, ?_, ?_, ?_, ?_, ?_, ?_⟩
    · rw [print_binary_length]
      omega
    · exact print_binary_loop_digits value bits.toNat
    · intro i hi
      exact print_binary_loop_get value bits.toNat i (by omega)
    · exact binary_value_print_binary_loop value bits.toNat
    · rw [print_binary_length]
      omega
    · exact print_binary_loop_zero bits.toNat
  · intro type address_bits page_size_kb L vaddr hL hv
    obtain ⟨n, j, ht, rfl, rfl, hj, hn, hn63, rfl⟩ := main_setup_ok _ _ _ _ hL
    rw [Int.toNat_ofNat] at hv
    rw [main_query_eq type n j hj vaddr, if_neg (by omega)]
    by_cases h2 : type = 2
    · rw [if_pos h2]
      simp only [layout_of, if_pos h2, print_binary_length]
      refine ⟨by omega, by omega, by omega, by omega, fun h => by omega⟩
    · rw [if_neg h2]
      simp only [layout_of, print_binary_length]
      refine ⟨by omega, by omega, by omega⟩

/-- Witness of `print_binary_rendering`: the 4-bit rendering of 5, and the report for
address 4097 with two-level, 32 address bits, 4 KB pages. -/
theorem print_binary_rendering_witness :
    (0 : Int) ≤ 4 ∧ (4 : Int) ≤ 64 ∧ print_binary 5 4 = ['0', '1', '0', '1'] ∧
    print_binary_checked 5 4 = some (print_binary 5 4) ∧
    ((print_binary 5 4).length : Int) = 4 ∧
    binary_value (print_binary 5 4) = 5 % 2 ^ (4 : Int).toNat ∧
    ∃ L, main_setup 2 32 4 = Except.ok L ∧ 4097 < 2 ^ (32 : Int).toNat ∧
      match main_query L 4097 with
      | QueryResult.out_of_range _ => False
      | QueryResult.single_level _ _ vaddr_bin vpn_bin offset_bin =>
          (vaddr_bin.length : Int) = L.address_bits ∧ (vpn_bin.length : Int) = L.vpn_bits ∧
            (offset_bin.length : Int) = L.offset_bits
      | QueryResult.two_level _ _ _ _ vaddr_bin vpn_bin offset_bin pd_bin pt_bin =>
          (vaddr_bin.length : Int) = L.address_bits ∧ (vpn_bin.length : Int) = L.vpn_bits ∧
            (offset_bin.length : Int) = L.offset_bits ∧ (pt_bin.length : Int) = L.pt_bits ∧
            (0 ≤ L.pd_bits → (pd_bin.length : Int) = L.pd_bits) :=
  ⟨by decide, by decide, by decide,
    (print_binary_rendering.1 5 4 (by decide) (by decide)).1,
    (print_binary_rendering.1 5 4 (by decide) (by decide)).2.1,
    (print_binary_rendering.1 5 4 (by decide) (by decide)).2.2.2.2.1,
    ⟨_, rfl, by decide, print_binary_rendering.2 2 32 4 _ 4097 rfl (by decide)⟩⟩

/-! ## The query loop -/

theorem main_loop_numeric (L : Layout) (vaddrs : List Nat) :
    main_loop L (vaddrs.map some) = vaddrs.map (main_query L) := by
  induction vaddrs with
  | nil => rfl
  | cons v rest ih => simp [main_loop, ih]

/-- C14: for every accepted configuration and every finite sequence of numeric
addresses, the loop prints one report per address, in order, and the whole output is
the concatenation of the outputs that each address produces when queried alone; an
address `>= 2 ^ address_bits` contributes exactly its error report, and the reports
before and after it are those of the loop run on the other addresses.  (The loop only
stops at a token that `scanf` cannot read, or at the end of the input.) -/
theorem query_loop_independent (type address_bits page_size_kb : Int) (L : Layout)
    (hL : main_setup type address_bits page_size_kb = Except.ok L) (vaddrs : List Nat) :
    main_loop L (vaddrs.map some) = vaddrs.map (main_query L) ∧
    main_loop L (vaddrs.map some) =
      (vaddrs.map (fun v => main_loop L [some v])).flatten ∧
    (main_loop L (vaddrs.map some)).length = vaddrs.length ∧
    (∀ (before after : List Nat) (v : Nat), v ≥ 2 ^ address_bits.toNat →
      main_loop L ((before ++ v :: after).map some) =
        main_loop L (before.map some) ++
          QueryResult.out_of_range (2 ^ address_bits.toNat) :: main_loop L (after.map some)) ∧
    (∀ (before : List Nat) (rest : List (Option Nat)),
      main_loop L (before.map some ++ none :: rest) = main_loop L (before.map some)) := by
  have hmem : ∀ v, v ≥ 2 ^ address_bits.toNat →
      main_query L v = QueryResult.out_of_range (2 ^ address_bits.toNat) := by
    intro v hv
    obtain ⟨n, j, ht, rfl, rfl, hj, hn, hn63, rfl⟩ := main_setup_ok _ _ _ _ hL
    rw [Int.toNat_ofNat] at hv ⊢
    rw [main_query_eq type n j hj v, if_pos hv]
  refine ⟨main_loop_numeric L vaddrs, ?_, ?_, ?_, ?_⟩
  · rw [main_loop_numeric]
    induction vaddrs with
    | nil => rfl
    | cons v rest ih => simp [main_loop, ih]
  · rw [main_loop_numeric, List.length_map]
  · intro before after v hv
    rw [main_loop_numeric, main_loop_numeric, main_loop_numeric, List.map_append,
      List.map_cons, hmem v hv]
  · intro before rest
    induction before with
    | nil => rfl
    | cons v tl ih => simp [main_loop, ih]

/-- Witness of `query_loop_independent`: two-level, 16 address bits, 1 KB pages and
the addresses 5, 70000 (out of range), 5. -/
theorem query_loop_independent_witness :
    ∃ L, main_setup 2 16 1 = Except.ok L ∧
      main_loop L ([5, 70000, 5].map some) =
        [main_query L 5, QueryResult.out_of_range 65536, main_query L 5] ∧
      main_loop L ([5, 70000, 5].map some) = [5, 70000, 5].map (main_query L) :=
  ⟨_, rfl, by decide, (query_loop_independent 2 16 1 _ rfl [5, 70000, 5]).1⟩

/-! ## The memory size report -/

/-- C15: `print_memory_size` reports `bytes / U` with `U` the largest of `2 ^ 30` (GB),
`2 ^ 20` (MB), `2 ^ 10` (KB) and 1 (B) that is `<= bytes`, and B below 1024; the number
reported is at least 1 whenever `bytes >= 1`.  For the memory size of every accepted
configuration the report is exact: the number reported times the unit is
`2 ^ address_bits` (and the unit is never B). -/
theorem print_memory_size_unit :
    (∀ bytes : Nat,
      (2 ^ 30 ≤ bytes → print_memory_size bytes = (bytes / 2 ^ 30, MemUnit.GB)) ∧
      (2 ^ 20 ≤ bytes → bytes < 2 ^ 30 →
        print_memory_size bytes = (bytes / 2 ^ 20, MemUnit.MB)) ∧
      (2 ^ 10 ≤ bytes → bytes < 2 ^ 20 →
        print_memory_size bytes = (bytes / 2 ^ 10, MemUnit.KB)) ∧
      (bytes < 2 ^ 10 → print_memory_size bytes = (bytes, MemUnit.B)) ∧
      (1 ≤ bytes → 1 ≤ (print_memory_size bytes).1)) ∧
    (∀ (type address_bits page_size_kb : Int) (L : Layout),
      main_setup type address_bits page_size_kb = Except.ok L →
      match print_memory_size L.mem_size with
      | (m, MemUnit.GB) => m * 2 ^ 30 = 2 ^ address_bits.toNat
      | (m, MemUnit.MB) => m * 2 ^ 20 = 2 ^ address_bits.toNat
      | (m, MemUnit.KB) => m * 2 ^ 10 = 2 ^ address_bits.toNat
      | (_, MemUnit.B) => False) := by
  have h30 : shl64 1 30 = 2 ^ 30 := by decide
  have h20 : shl64 1 20 = 2 ^ 20 := by decide
  have h10 : shl64 1 10 = 2 ^ 10 := by decide
  have hr30 : ∀ b, shr64 b 30 = b / 2 ^ 30 := fun b => shr64_natCast b 30
  have hr20 : ∀ b, shr64 b 20 = b / 2 ^ 20 := fun b => shr64_natCast b 20
  have hr10 : ∀ b, shr64 b 10 = b / 2 ^ 10 := fun b => shr64_natCast b 10
  have hGB : ∀ b, 2 ^ 30 ≤ b → print_memory_size b = (b / 2 ^ 30, MemUnit.GB) := by
    intro b hb
    unfold print_memory_size
    rw [h30, if_pos hb, hr30]
  have hMB : ∀ b, 2 ^ 20 ≤ b → b < 2 ^ 30 →
      print_memory_size b = (b / 2 ^ 20, MemUnit.MB) := by
    intro b hb hb2
    unfold print_memory_size
    rw [h30, h20, if_neg (by omega), if_pos hb, hr20]
  have hKB : ∀ b, 2 ^ 10 ≤ b → b < 2 ^ 20 →
      print_memory_size b = (b / 2 ^ 10, MemUnit.KB) := by
    intro b hb hb2
    unfold print_memory_size
    rw [h30, h20, h10, if_neg (by omega), if_neg (by omega), if_pos hb, hr10]
  have hB : ∀ b, b < 2 ^ 10 → print_memory_size b = (b, MemUnit.B) := by
    intro b hb
    unfold print_memory_size
    rw [h30, h20, h10, if_neg (by omega), if_neg (by omega), if_neg (by omega)]
  constructor
  · intro bytes
    refine ⟨hGB bytes, hMB bytes, hKB bytes, hB bytes, ?_⟩
    intro h1
    by_cases c30 : 2 ^ 30 ≤ bytes
    · rw [hGB bytes c30]
      exact (Nat.one_le_div_iff (by positivity)).2 c30
    · by_cases c20 : 2 ^ 20 ≤ bytes
      · rw [hMB bytes c20 (by omega)]
        exact (Nat.one_le_div_iff (by positivity)).2 c20
      · by_cases c10 : 2 ^ 10 ≤ bytes
        · rw [hKB bytes c10 (by omega)]
          exact (Nat.one_le_div_iff (by positivity)).2 c10
        · rw [hB bytes (by omega)]
          exact h1
  · intro type address_bits page_size_kb L hL
    obtain ⟨n, j, ht, rfl, rfl, hj, hn, hn63, rfl⟩ := main_setup_ok _ _ _ _ hL
    rw [Int.toNat_ofNat]
    simp only [layout_of]
    have hsplit : ∀ m : Nat, m ≤ n → 2 ^ n / 2 ^ m * 2 ^ m = 2 ^ n := by
      intro m hm
      exact Nat.div_mul_cancel (pow_dvd_pow 2 hm)
    by_cases c30 : 30 ≤ n
    · rw [hGB _ (Nat.pow_le_pow_right (by decide) c30)]
      exact hsplit 30 c30
    · have l30 : 2 ^ n < 2 ^ 30 := Nat.pow_lt_pow_right (by decide) (by omega)
      by_cases c20 : 20 ≤ n
      · rw [hMB _ (Nat.pow_le_pow_right (by decide) c20) l30]
        exact hsplit 20 c20
      · have l20 : 2 ^ n < 2 ^ 20 := Nat.pow_lt_pow_right (by decide) (by omega)
        rw [hKB _ (Nat.pow_le_pow_right (by decide) (by omega : 10 ≤ n)) l20]
        exact hsplit 10 (by omega)

/-- Witness of `print_memory_size_unit`: 4 GB for 32 address bits, and 1536 bytes are
reported as 1 KB. -/
theorem print_memory_size_unit_witness :
    (2 ^ 10 ≤ 1536 ∧ 1536 < 2 ^ 20 ∧ print_memory_size 1536 = (1536 / 2 ^ 10, MemUnit.KB)) ∧
    ∃ L, main_setup 1 32 4 = Except.ok L ∧
      match print_memory_size L.mem_size with
      | (m, MemUnit.GB) => m * 2 ^ 30 = 2 ^ (32 : Int).toNat
      | (m, MemUnit.MB) => m * 2 ^ 20 = 2 ^ (32 : Int).toNat
      | (m, MemUnit.KB) => m * 2 ^ 10 = 2 ^ (32 : Int).toNat
      | (_, MemUnit.B) => False :=
  ⟨⟨by decide, by decide, (print_memory_size_unit.1 1536).2.2.1 (by decide) (by decide)⟩,
    ⟨_, rfl, print_memory_size_unit.2 1 32 4 _ rfl⟩⟩

/-! ## Nesting of the binary renderings -/

/-- C16: for every accepted configuration and every address below `2 ^ address_bits`,
`offset < 2 ^ offset_bits` and `vpn < 2 ^ vpn_bits`, the binary string of the address
is the string of the VPN followed by the string of the offset, and each string reads
back as the field it renders.  In the two-level branch `pt_index < 2 ^ pt_bits`, and
when `pd_bits >= 0` also `pd_index < 2 ^ pd_bits`, the string of the VPN is the string
of the directory index followed by the string of the table index, and both read back
as their fields. -/
theorem binary_renderings_nest (type address_bits page_size_kb : Int) (L : Layout)
    (vaddr : Nat) (hL : main_setup type address_bits page_size_kb = Except.ok L)
    (hv : vaddr < 2 ^ address_bits.toNat) :
    match main_query L vaddr with
    | QueryResult.out_of_range _ => False
    | QueryResult.single_level vpn offset vaddr_bin vpn_bin offset_bin =>
        offset < 2 ^ L.offset_bits.toNat ∧ vpn < 2 ^ L.vpn_bits.toNat ∧
          vaddr_bin = vpn_bin ++ offset_bin ∧ binary_value vaddr_bin = vaddr ∧
          binary_value vpn_bin = vpn ∧ binary_value offset_bin = offset
    | QueryResult.two_level vpn offset pd_index pt_index vaddr_bin vpn_bin offset_bin
        pd_bin pt_bin =>
        offset < 2 ^ L.offset_bits.toNat ∧ vpn < 2 ^ L.vpn_bits.toNat ∧
          vaddr_bin = vpn_bin ++ offset_bin ∧ binary_value vaddr_bin = vaddr ∧
          binary_value vpn_bin = vpn ∧ binary_value offset_bin = offset ∧
          pt_index < 2 ^ L.pt_bits.toNat ∧ binary_value pt_bin = pt_index ∧
          (0 ≤ L.pd_bits →
            pd_index < 2 ^ L.pd_bits.toNat ∧ vpn_bin = pd_bin ++ pt_bin ∧
              binary_value pd_bin = pd_index) := by
  obtain ⟨n, j, ht, rfl, rfl, hj, hn, hn63, rfl⟩ := main_setup_ok _ _ _ _ hL
  rw [Int.toNat_ofNat] at hv
  have hV : (n : Int) - ((j : Int) + 10) = ((n - (j + 10) : Nat) : Int) := by omega
  have hO : (j : Int) + 10 = ((j + 10 : Nat) : Int) := by omega
  have hT : (j : Int) + 8 = ((j + 8 : Nat) : Int) := by omega
  have hoff : vaddr % 2 ^ (j + 10) < 2 ^ (j + 10) := Nat.mod_lt _ (by positivity)
  have hvpn : vaddr / 2 ^ (j + 10) < 2 ^ (n - (j + 10)) :=
    div_two_pow_lt vaddr _ _ (by rw [Nat.sub_add_cancel hn]; exact hv)
  have hpt : vaddr / 2 ^ (j + 10) % 2 ^ (j + 8) < 2 ^ (j + 8) := Nat.mod_lt _ (by positivity)
  have hcat := print_binary_split vaddr n (j + 10) hn
  have hval := binary_value_print_binary vaddr n hv
  have hvalv := binary_value_print_binary _ _ hvpn
  have hvalo := binary_value_print_binary _ _ hoff
  have hvalt := binary_value_print_binary _ _ hpt
  rw [main_query_eq type n j hj vaddr, if_neg (by omega)]
  by_cases h2 : type = 2
  · rw [if_pos h2]
    simp only [layout_of, if_pos h2]
    rw [hV, hO, hT]
    simp only [Int.toNat_ofNat]
    refine ⟨hoff, hvpn, hcat, hval, hvalv, hvalo, hpt, hvalt, ?_⟩
    intro hpd
    have hD : (n : Int) - 2 * (j : Int) - 18 = ((n - (j + 10) - (j + 8) : Nat) : Int) := by
      omega
    have hle : j + 8 ≤ n - (j + 10) := by omega
    have hpdlt : vaddr / 2 ^ (j + 10) / 2 ^ (j + 8) < 2 ^ (n - (j + 10) - (j + 8)) :=
      div_two_pow_lt _ _ _ (by rw [Nat.sub_add_cancel hle]; exact hvpn)
    rw [hD]
    simp only [Int.toNat_ofNat]
    exact ⟨hpdlt, print_binary_split _ _ _ hle, binary_value_print_binary _ _ hpdlt⟩
  · rw [if_neg h2]
    simp only [layout_of]
    rw [hV, hO]
    simp only [Int.toNat_ofNat]
    exact ⟨hoff, hvpn, hcat, hval, hvalv, hvalo⟩

/-- Witness of `binary_renderings_nest`: two-level, 32 address bits, 4 KB pages,
address 4097. -/
theorem binary_renderings_nest_witness :
    ∃ L, main_setup 2 32 4 = Except.ok L ∧ 4097 < 2 ^ (32 : Int).toNat ∧
      match main_query L 4097 with
      | QueryResult.out_of_range _ => False
      | QueryResult.single_level vpn offset vaddr_bin vpn_bin offset_bin =>
          offset < 2 ^ L.offset_bits.toNat ∧ vpn < 2 ^ L.vpn_bits.toNat ∧
            vaddr_bin = vpn_bin ++ offset_bin ∧ binary_value vaddr_bin = 4097 ∧
            binary_value vpn_bin = vpn ∧ binary_value offset_bin = offset
      | QueryResult.two_level vpn offset pd_index pt_index vaddr_bin vpn_bin offset_bin
          pd_bin pt_bin =>
          offset < 2 ^ L.offset_bits.toNat ∧ vpn < 2 ^ L.vpn_bits.toNat ∧
            vaddr_bin = vpn_bin ++ offset_bin ∧ binary_value vaddr_bin = 4097 ∧
            binary_value vpn_bin = vpn ∧ binary_value offset_bin = offset ∧
            pt_index < 2 ^ L.pt_bits.toNat ∧ binary_value pt_bin = pt_index ∧
            (0 ≤ L.pd_bits →
              pd_index < 2 ^ L.pd_bits.toNat ∧ vpn_bin = pd_bin ++ pt_bin ∧
                binary_value pd_bin = pd_index) :=
  ⟨_, rfl, by decide, binary_renderings_nest 2 32 4 _ 4097 rfl (by decide)⟩

/-! ## Bounds, organisation and the one-page address space -/

/-- C17: every accepted configuration has `10 <= address_bits <= 63`,
`10 <= offset_bits <= 19` and `0 <= vpn_bits <= 53`, and for the two-level organisation
`8 <= pt_bits <= 17`.  These are the amounts of all the 64-bit shifts of the program
(`address_bits` for `mem_size`, `vpn_bits` for `total_pages`, `offset_bits` for the
offset mask and the VPN, `pt_bits` for the table-index mask and the directory index),
so each of them lies in the range 0 to 63. -/
theorem shift_amounts_in_range (type address_bits page_size_kb : Int) (L : Layout)
    (hL : main_setup type address_bits page_size_kb = Except.ok L) :
    (10 ≤ address_bits ∧ address_bits ≤ 63) ∧ L.address_bits = address_bits ∧
    (10 ≤ L.offset_bits ∧ L.offset_bits ≤ 19) ∧
    (0 ≤ L.vpn_bits ∧ L.vpn_bits ≤ 53) ∧
    (type = 2 → 8 ≤ L.pt_bits ∧ L.pt_bits ≤ 17) ∧
    (0 ≤ L.address_bits ∧ L.address_bits ≤ 63) ∧
    (0 ≤ L.offset_bits ∧ L.offset_bits ≤ 63) ∧
    (0 ≤ L.vpn_bits ∧ L.vpn_bits ≤ 63) ∧
    (0 ≤ L.pt_bits ∧ L.pt_bits ≤ 63) := by
  obtain ⟨n, j, ht, rfl, rfl, hj, hn, hn63, rfl⟩ := main_setup_ok _ _ _ _ hL
  simp only [layout_of]
  refine ⟨by omega, trivial, by omega, by omega, ?_, by omega, by omega, by omega, ?_⟩
  · intro h2
    rw [if_pos h2]
    omega
  · split_ifs <;> omega

/-- Witness of `shift_amounts_in_range`: two-level, 63 address bits, 512 KB pages. -/
theorem shift_amounts_in_range_witness :
    ∃ L, main_setup 2 63 512 = Except.ok L ∧
      ((10 : Int) ≤ 63 ∧ (63 : Int) ≤ 63) ∧ L.address_bits = 63 ∧
      (10 ≤ L.offset_bits ∧ L.offset_bits ≤ 19) ∧
      (0 ≤ L.vpn_bits ∧ L.vpn_bits ≤ 53) ∧
      ((2 : Int) = 2 → 8 ≤ L.pt_bits ∧ L.pt_bits ≤ 17) ∧
      (0 ≤ L.address_bits ∧ L.address_bits ≤ 63) ∧
      (0 ≤ L.offset_bits ∧ L.offset_bits ≤ 63) ∧
      (0 ≤ L.vpn_bits ∧ L.vpn_bits ≤ 63) ∧
      (0 ≤ L.pt_bits ∧ L.pt_bits ≤ 63) :=
  ⟨_, rfl, shift_amounts_in_range 2 63 512 _ rfl⟩

theorem main_setup_both (a k : Int) :
    (∃ e, main_setup 1 a k = Except.error e ∧ main_setup 2 a k = Except.error e) ∨
    (∃ n j : Nat, a = (n : Int) ∧ k = 2 ^ j ∧ j ≤ 9 ∧ j + 10 ≤ n ∧ n ≤ 63 ∧
      main_setup 1 a k = Except.ok (layout_of 1 n j) ∧
      main_setup 2 a k = Except.ok (layout_of 2 n j)) := by
  have t2 : (2 : Int) = 1 ∨ (2 : Int) = 2 := Or.inr rfl
  rcases main_setup_cases 1 a k with
    ⟨ht, -⟩ | ⟨-, ha, hr⟩ | ⟨-, ha, hk, hr⟩ | ⟨n, j, -, rfl, hn8, hn63, hj, rfl, hn, hr⟩ |
    ⟨n, j, -, rfl, hn63, hj, rfl, hn, hr⟩
  · exact absurd (Or.inl rfl) ht
  · exact Or.inl ⟨_, hr, main_setup_bad_address_bits 2 a k t2 ha⟩
  · refine Or.inl ⟨_, hr, main_setup_bad_page_size 2 a k t2 ha ?_⟩
    by_contra hc
    exact hk ((page_size_check_iff k).1 hc)
  · exact Or.inl ⟨_, hr, main_setup_too_small 2 n j t2 hn8 hn63 hj hn⟩
  · exact Or.inr ⟨n, j, rfl, rfl, hj, hn, hn63, hr, main_setup_eq 2 n j t2 hj hn hn63⟩

/-- C18: for every `address_bits` and `page_size_kb`, type 1 is accepted if and only
if type 2 is (and a rejection carries the same error); when accepted, both give the
same `mem_size`, `page_size_bytes`, `offset_bits`, `vpn_bits`, `total_pages` and
`page_table_size`, every address is out of range for both or for neither, and an
address in range gets the same VPN, offset and binary strings of the address, the VPN
and the offset from both. -/
theorem organisation_independent (address_bits page_size_kb : Int) :
    ((∃ L1, main_setup 1 address_bits page_size_kb = Except.ok L1) ↔
      (∃ L2, main_setup 2 address_bits page_size_kb = Except.ok L2)) ∧
    (∀ e, main_setup 1 address_bits page_size_kb = Except.error e ↔
      main_setup 2 address_bits page_size_kb = Except.error e) ∧
    (∀ L1 L2 : Layout, main_setup 1 address_bits page_size_kb = Except.ok L1 →
      main_setup 2 address_bits page_size_kb = Except.ok L2 →
      L1.mem_size = L2.mem_size ∧ L1.page_size_bytes = L2.page_size_bytes ∧
      L1.offset_bits = L2.offset_bits ∧ L1.vpn_bits = L2.vpn_bits ∧
      L1.total_pages = L2.total_pages ∧ L1.page_table_size = L2.page_table_size ∧
      ∀ vaddr : Nat,
        (vaddr ≥ L1.mem_size ∧ main_query L1 vaddr = QueryResult.out_of_range L1.mem_size ∧
          main_query L2 vaddr = QueryResult.out_of_range L1.mem_size) ∨
        (vaddr < L1.mem_size ∧
          ∃ vpn offset pd_index pt_index vaddr_bin vpn_bin offset_bin pd_bin pt_bin,
            main_query L1 vaddr =
              QueryResult.single_level vpn offset vaddr_bin vpn_bin offset_bin ∧
            main_query L2 vaddr =
              QueryResult.two_level vpn offset pd_index pt_index vaddr_bin vpn_bin offset_bin
                pd_bin pt_bin)) := by
  rcases main_setup_both address_bits page_size_kb with
    ⟨e, h1, h2⟩ | ⟨n, j, rfl, rfl, hj, hn, hn63, h1, h2⟩
  · rw [h1, h2]
    refine ⟨?_, fun e => Iff.rfl, ?_⟩
    · constructor <;> rintro ⟨L, hL⟩ <;> cases hL
    · intro L1 L2 hL
      cases hL
  · rw [h1, h2]
    refine ⟨⟨fun _ => ⟨_, rfl⟩, fun _ => ⟨_, rfl⟩⟩, ?_, ?_⟩
    · intro e
      constructor <;> intro h <;> cases h
    · intro L1 L2 hL1 hL2
      cases hL1
      cases hL2
      refine ⟨rfl, rfl, rfl, rfl, rfl, rfl, ?_⟩
      intro vaddr
      have q1 := main_query_eq 1 n j hj vaddr
      have q2 := main_query_eq 2 n j hj vaddr
      have hm : (layout_of 1 n j).mem_size = 2 ^ n := rfl
      rw [hm]
      by_cases hv : vaddr ≥ 2 ^ n
      · rw [if_pos hv] at q1 q2
        exact Or.inl ⟨hv, q1, q2⟩
      · rw [if_neg hv, if_neg (by decide : ¬ ((1 : Int) = 2))] at q1
        rw [if_neg hv, if_pos rfl] at q2
        exact Or.inr ⟨by omega, _, _, _, _, _, _, _, _, _, q1, q2⟩

/-- Witness of `organisation_independent`: 16 address bits, 1 KB pages, address 5000. -/
theorem organisation_independent_witness :
    ∃ L1 L2, main_setup 1 16 1 = Except.ok L1 ∧ main_setup 2 16 1 = Except.ok L2 ∧
      L1.mem_size = L2.mem_size ∧ L1.page_size_bytes = L2.page_size_bytes ∧
      L1.offset_bits = L2.offset_bits ∧ L1.vpn_bits = L2.vpn_bits ∧
      L1.total_pages = L2.total_pages ∧ L1.page_table_size = L2.page_table_size ∧
      ∀ vaddr : Nat,
        (vaddr ≥ L1.mem_size ∧ main_query L1 vaddr = QueryResult.out_of_range L1.mem_size ∧
          main_query L2 vaddr = QueryResult.out_of_range L1.mem_size) ∨
        (vaddr < L1.mem_size ∧
          ∃ vpn offset pd_index pt_index vaddr_bin vpn_bin offset_bin pd_bin pt_bin,
            main_query L1 vaddr =
              QueryResult.single_level vpn offset vaddr_bin vpn_bin offset_bin ∧
            main_query L2 vaddr =
              QueryResult.two_level vpn offset pd_index pt_index vaddr_bin vpn_bin offset_bin
                pd_bin pt_bin) :=
  ⟨_, _, rfl, rfl, (organisation_independent 16 1).2.2 _ _ rfl rfl⟩

/-- C19: for every accepted configuration whose page fills the address space
(`page_size_kb * 1024 = 2 ^ address_bits`), `vpn_bits = 0`, `total_pages = 1` and
`page_table_size = 4`, and every address below `2 ^ address_bits` decomposes to
`vpn = 0` and `offset = vaddr`, the VPN being rendered as the empty string. -/
theorem single_page_address_space (type address_bits page_size_kb : Int) (L : Layout)
    (hL : main_setup type address_bits page_size_kb = Except.ok L)
    (hpage : page_size_kb * 1024 = 2 ^ address_bits.toNat) :
    L.vpn_bits = 0 ∧ L.total_pages = 1 ∧ L.page_table_size = 4 ∧
    ∀ vaddr : Nat, vaddr < 2 ^ address_bits.toNat →
      match main_query L vaddr with
      | QueryResult.out_of_range _ => False
      | QueryResult.single_level vpn offset _ vpn_bin _ =>
          vpn = 0 ∧ offset = vaddr ∧ vpn_bin = []
      | QueryResult.two_level vpn offset _ _ _ vpn_bin _ _ _ =>
          vpn = 0 ∧ offset = vaddr ∧ vpn_bin = [] := by
  obtain ⟨n, j, ht, rfl, rfl, hj, hn, hn63, rfl⟩ := main_setup_ok _ _ _ _ hL
  rw [Int.toNat_ofNat] at hpage ⊢
  have hle : n ≤ j + 10 := by
    have h1 : (2 : Int) ^ n * 1 ≤ 2 ^ j * 1024 := by rw [hpage]; omega
    by_contra hc
    have h2 : (2 : Int) ^ j * 1024 < 2 ^ n := by
      have e1 : (2 : Int) ^ j * 1024 = ((2 ^ (j + 10) : Nat) : Int) := by
        push_cast; rw [pow_add]; norm_num
      have e2 : (2 : Int) ^ n = ((2 ^ n : Nat) : Int) := by push_cast; rfl
      rw [e1, e2, Int.ofNat_lt]
      exact Nat.pow_lt_pow_right (by decide) (by omega)
    omega
  have hnj : n = j + 10 := by omega
  subst hnj
  refine ⟨?_, ?_, ?_, ?_⟩
  · simp only [layout_of]
    omega
  · simp [layout_of]
  · simp [layout_of]
  intro vaddr hv
  rw [main_query_eq type (j + 10) j hj vaddr, if_neg (by omega)]
  have hvpn : vaddr / 2 ^ (j + 10) = 0 := Nat.div_eq_of_lt hv
  have hoff : vaddr % 2 ^ (j + 10) = vaddr := Nat.mod_eq_of_lt hv
  have hbits : (((j + 10 : Nat) : Int) - ((j : Int) + 10)) = 0 := by omega
  by_cases h2 : type = 2
  · rw [if_pos h2, hvpn, hoff, hbits]
    exact ⟨rfl, rfl, rfl⟩
  · rw [if_neg h2, hvpn, hoff, hbits]
    exact ⟨rfl, rfl, rfl⟩

/-- Witness of `single_page_address_space`: two-level, 10 address bits, 1 KB pages. -/
theorem single_page_address_space_witness :
    ∃ L, main_setup 2 10 1 = Except.ok L ∧ (1 : Int) * 1024 = 2 ^ (10 : Int).toNat ∧
      L.vpn_bits = 0 ∧ L.total_pages = 1 ∧ L.page_table_size = 4 ∧
      ∀ vaddr : Nat, vaddr < 2 ^ (10 : Int).toNat →
        match main_query L vaddr with
        | QueryResult.out_of_range _ => False
        | QueryResult.single_level vpn offset _ vpn_bin _ =>
            vpn = 0 ∧ offset = vaddr ∧ vpn_bin = []
        | QueryResult.two_level vpn offset _ _ _ vpn_bin _ _ _ =>
            vpn = 0 ∧ offset = vaddr ∧ vpn_bin = [] :=
  ⟨_, rfl, by decide, single_page_address_space 2 10 1 _ rfl (by decide)⟩

end AddressSpace
